import Mathlib

/-! TCP-Keyboard: a shallow embedding of the keypress server.

The development embeds `TCP-Keyboard/TCP-Keyboard.go`.  Go strings are modelled as
Lean strings (sequences of Unicode code points): every string the handlers see is
produced by `json.Unmarshal` or by `syscall.UTF16ToString`, both of which yield valid
UTF-8.  The window system is an explicit state: the enumeration order of the top-level
windows, an oracle answering the successive `GetForegroundWindow` calls, a virtual clock
advanced by `time.Sleep`, and the trace of the calls issued so far.
-/

namespace TCPKeyboard

/-! ## Strings -/

/-- Go `unicode.ToLower`: the ASCII fast path is spelled out, every other rune goes through
the case table `unicode.To(unicode.LowerCase, r)` of the Go library, here `lowerCase`. -/
def unicodeToLower (lowerCase : Char → Char) (r : Char) : Char :=
  if r.toNat ≤ 0x7F then
    if 'A'.toNat ≤ r.toNat ∧ r.toNat ≤ 'Z'.toNat then Char.ofNat (r.toNat + ('a'.toNat - 'A'.toNat))
    else r
  else lowerCase r

/-- Go `strings.ToLower`: every rune of the string mapped through `unicode.ToLower`. -/
def toLower (lowerCase : Char → Char) (s : String) : String :=
  ⟨s.data.map (unicodeToLower lowerCase)⟩

/-- Substring search on rune sequences: does `sub` occur in `s` at some position. -/
def containsChars : List Char → List Char → Bool
  | [], sub => sub.isEmpty
  | c :: s, sub => sub.isPrefixOf (c :: s) || containsChars s sub

/-- Go `strings.Contains(s, substr)`. -/
def contains (s substr : String) : Bool :=
  containsChars s.data substr.data

/-- A stand-in for the part of the Go case table used to instantiate the theorems:
the Kelvin sign and the dotted capital I lower to ASCII letters, the capital letters of
Latin-1 lower by an offset of 32, every other rune is left as it is. -/
def sampleCaseTable (r : Char) : Char :=
  if r.toNat = 0x212A then 'k'
  else if r.toNat = 0x130 then 'i'
  else if 0xC0 ≤ r.toNat ∧ r.toNat ≤ 0xDE ∧ r.toNat ≠ 0xD7 then Char.ofNat (r.toNat + 32)
  else r

/-! ## The window system -/

/-- A top-level window as the enumeration callback sees it: its handle, the text obtained
from `GetWindowTextW`, the answer of `IsWindowVisible`, and whether it is minimized. -/
structure Window where
  handle : Nat
  title : String
  visible : Bool
  minimized : Bool
  deriving DecidableEq, Repr

/-- The calls a handler issues to the window system and to the clock. -/
inductive Call where
  | showWindow (hwnd : Nat) (cmd : Nat)
  | setForegroundWindow (hwnd : Nat)
  | getForegroundWindow
  | keybd_event (vk : Nat) (flags : Nat)
  | sleep (ms : Nat)
  deriving DecidableEq, Repr

/-- State of the window system during one command. `foreground k` is the answer of the
`k`-th `GetForegroundWindow` call, `now` the virtual clock in milliseconds. -/
structure Sys where
  windows : List Window
  foreground : Nat → Nat
  polls : Nat
  now : Nat
  trace : List Call

def Sys.init (windows : List Window) (foreground : Nat → Nat) : Sys :=
  { windows := windows, foreground := foreground, polls := 0, now := 0, trace := [] }

def Sys.emit (s : Sys) (c : Call) : Sys :=
  { s with trace := s.trace ++ [c] }

def showWindow (hwnd cmd : Nat) (s : Sys) : Sys :=
  s.emit (.showWindow hwnd cmd)

def setForegroundWindow (hwnd : Nat) (s : Sys) : Sys :=
  s.emit (.setForegroundWindow hwnd)

def getForegroundWindow (s : Sys) : Nat × Sys :=
  (s.foreground s.polls, { s.emit .getForegroundWindow with polls := s.polls + 1 })

def keybd_event (vk flags : Nat) (s : Sys) : Sys :=
  s.emit (.keybd_event vk flags)

def sleep (ms : Nat) (s : Sys) : Sys :=
  { s.emit (.sleep ms) with now := s.now + ms }

/-- The flag of a key-up event. -/
def KEYEVENTF_KEYUP : Nat := 0x0002

def SW_RESTORE : Nat := 9

/-! ## Responses -/

/-- The `data` object of a window-not-found error. -/
structure ErrorData where
  searched_for : String
  available_windows : List String
  deriving DecidableEq, Repr

/-- The response object a handler marshals: `status` always, `message` and `data` as built
by `toJSON` and by the success path of `handleKeypress`, `windows` by the list handlers. -/
structure Response where
  status : String
  message : Option String
  windows : Option (List String)
  data : Option ErrorData
  deriving DecidableEq, Repr

def toJSON (status message : String) (data : Option ErrorData) : Response :=
  { status := status, message := some message, windows := none, data := data }

/-! ## Key codes -/

def getAllowedKeys : List (String × List String) :=
  [ ("alphabet", ["a", "b", "c", "d", "e", "f", "g", "h", "i", "j", "k", "l", "m", "n", "o", "p", "q", "r", "s", "t", "u", "v", "w", "x", "y", "z"]),
    ("numbers", ["0", "1", "2", "3", "4", "5", "6", "7", "8", "9"]),
    ("function", ["f1", "f2", "f3", "f4", "f5", "f6", "f7", "f8", "f9", "f10", "f11", "f12"]),
    ("control", ["enter", "return", "tab", "backspace", "space", "escape", "delete", "insert", "home", "end", "pageup", "pagedown"]),
    ("arrows", ["left", "up", "right", "down"]),
    ("modifiers", ["shift", "ctrl", "control", "alt", "capslock", "caps", "numlock", "scroll", "menu", "super", "win"]),
    ("special", ["!", "@", "#", "$", "%", "^", "&", "*", "(", ")", "-", "_", "=", "+", "[", "\x7b", "]", "\x7d", ";", ":", "'", "\"", ",", "<", ".", ">", "/", "?", "`", "~"]),
    ("numpad", ["numpad0", "numpad1", "numpad2", "numpad3", "numpad4", "numpad5", "numpad6", "numpad7", "numpad8", "numpad9", "numpad*", "numpad+", "numpad-", "numpad.", "numpad/"]) ]

def isModifierKey (key : String) : Bool :=
  match key with
  | "shift" | "ctrl" | "control" | "alt" | "capslock" | "caps" | "numlock" | "scroll"
  | "menu" | "super" | "win" => true
  | _ => false

/-- The key-code switch of `handleKeypress`, applied to the lowercased key name; `none` is
the `default` branch. -/
def vkCodeOf (name : String) : Option Nat :=
  match name with
  -- Alphabet
  | "a" => some 0x41
  | "b" => some 0x42
  | "c" => some 0x43
  | "d" => some 0x44
  | "e" => some 0x45
  | "f" => some 0x46
  | "g" => some 0x47
  | "h" => some 0x48
  | "i" => some 0x49
  | "j" => some 0x4A
  | "k" => some 0x4B
  | "l" => some 0x4C
  | "m" => some 0x4D
  | "n" => some 0x4E
  | "o" => some 0x4F
  | "p" => some 0x50
  | "q" => some 0x51
  | "r" => some 0x52
  | "s" => some 0x53
  | "t" => some 0x54
  | "u" => some 0x55
  | "v" => some 0x56
  | "w" => some 0x57
  | "x" => some 0x58
  | "y" => some 0x59
  | "z" => some 0x5A
  -- Numbers
  | "0" => some 0x30
  | "1" => some 0x31
  | "2" => some 0x32
  | "3" => some 0x33
  | "4" => some 0x34
  | "5" => some 0x35
  | "6" => some 0x36
  | "7" => some 0x37
  | "8" => some 0x38
  | "9" => some 0x39
  -- Function keys
  | "f1" => some 0x70
  | "f2" => some 0x71
  | "f3" => some 0x72
  | "f4" => some 0x73
  | "f5" => some 0x74
  | "f6" => some 0x75
  | "f7" => some 0x76
  | "f8" => some 0x77
  | "f9" => some 0x78
  | "f10" => some 0x79
  | "f11" => some 0x7A
  | "f12" => some 0x7B
  -- Control keys
  | "enter" | "return" => some 0x0D
  | "tab" => some 0x09
  | "backspace" => some 0x08
  | "space" => some 0x20
  | "escape" => some 0x1B
  | "delete" => some 0x2E
  | "insert" => some 0x2D
  | "home" => some 0x24
  | "end" => some 0x23
  | "pageup" => some 0x21
  | "pagedown" => some 0x22
  -- Arrow keys
  | "left" => some 0x25
  | "up" => some 0x26
  | "right" => some 0x27
  | "down" => some 0x28
  -- Special characters
  | "!" => some 0x31
  | "@" => some 0x32
  | "#" => some 0x33
  | "$" => some 0x34
  | "%" => some 0x35
  | "^" => some 0x36
  | "&" => some 0x37
  | "*" => some 0x38
  | "(" => some 0x39
  | ")" => some 0x30
  | "-" => some 0xBD
  | "_" => some 0xBD
  | "=" => some 0xBB
  | "+" => some 0xBB
  | "[" => some 0xDB
  | "\x7b" => some 0xDB
  | "]" => some 0xDD
  | "\x7d" => some 0xDD
  | ";" => some 0xBA
  | ":" => some 0xBA
  | "'" => some 0xDE
  | "\"" => some 0xDE
  | "," => some 0xBC
  | "<" => some 0xBC
  | "." => some 0xBE
  | ">" => some 0xBE
  | "/" => some 0xBF
  | "?" => some 0xBF
  | "`" => some 0xC0
  | "~" => some 0xC0
  -- Modifier keys
  | "shift" => some 0x10
  | "ctrl" | "control" => some 0x11
  | "alt" => some 0x12
  | "capslock" | "caps" => some 0x14
  | "numlock" => some 0x90
  | "scroll" => some 0x91
  | "printscreen" => some 0x2C
  | "pause" => some 0x13
  | "menu" => some 0x5D
  | "super" | "win" => some 0x5B
  -- Numpad
  | "numpad0" => some 0x60
  | "numpad1" => some 0x61
  | "numpad2" => some 0x62
  | "numpad3" => some 0x63
  | "numpad4" => some 0x64
  | "numpad5" => some 0x65
  | "numpad6" => some 0x66
  | "numpad7" => some 0x67
  | "numpad8" => some 0x68
  | "numpad9" => some 0x69
  | "numpad*" => some 0x6A
  | "numpad+" => some 0x6B
  | "numpad-" => some 0x6D
  | "numpad." => some 0x6E
  | "numpad/" => some 0x6F
  | _ => none

/-! ## Focus -/

/-- The polling loop of `waitForForeground`. `fuel` bounds the number of iterations; every
iteration that does not return advances the clock by 25 ms. -/
def waitLoop (hwnd deadline : Nat) : Nat → Sys → Bool × Sys
  | 0, s => (false, s)
  | fuel + 1, s =>
    if s.now < deadline then
      let (fg, s1) := getForegroundWindow s
      if fg = hwnd then (true, s1)
      else waitLoop hwnd deadline fuel (sleep 25 s1)
    else (false, s)

def waitForForeground (hwnd timeout : Nat) (s : Sys) : Bool × Sys :=
  waitLoop hwnd (s.now + timeout) (timeout + 1) s

/-- The retry loop of `handleKeypress`: `n` is the number of attempts left. -/
def focusLoop (hwnd : Nat) : Nat → Sys → Sys
  | 0, s => s
  | n + 1, s =>
    let (ok, s1) := waitForForeground hwnd 350 (setForegroundWindow hwnd s)
    if ok then s1 else focusLoop hwnd n (sleep 75 s1)

/-! ## Window enumeration -/

/-- The enumeration callback of `handleListVisibleWindows`, folded over the windows. -/
def listVisibleTitles : List Window → List String
  | [] => []
  | w :: ws =>
    if w.visible = false then listVisibleTitles ws
    else if w.title ≠ "" then w.title :: listVisibleTitles ws
    else listVisibleTitles ws

/-- The enumeration callback of `handleListAllWindows`, folded over the windows. -/
def listAllTitles : List Window → List String
  | [] => []
  | w :: ws =>
    if w.title ≠ "" then w.title :: listAllTitles ws
    else listAllTitles ws

def handleListVisibleWindows (s : Sys) : Response × Sys :=
  ({ status := "success", message := none, windows := some (listVisibleTitles s.windows),
     data := none }, s)

def handleListAllWindows (s : Sys) : Response × Sys :=
  ({ status := "success", message := none, windows := some (listAllTitles s.windows),
     data := none }, s)

/-- The enumeration callback of `handleKeypress`, run over the windows in enumeration
order with the captured variables `hwnd` and `allWindows`; the callback answering 0 stops
the enumeration. -/
def enumKeypress (lowerCase : Char → Char) (windowTitle : String) :
    List Window → Nat × List String → Nat × List String
  | [], acc => acc
  | w :: ws, (hwnd, allWindows) =>
    let allWindows1 := if w.title ≠ "" then allWindows ++ [w.title] else allWindows
    if contains (toLower lowerCase w.title) (toLower lowerCase windowTitle) then
      (w.handle, allWindows1)
    else enumKeypress lowerCase windowTitle ws (hwnd, allWindows1)

/-! ## Key injection -/

/-- Go `fmt.Sprintf("%v", xs)` for a slice of strings. -/
def formatStrings (xs : List String) : String :=
  "[" ++ " ".intercalate xs ++ "]"

/-- The release loop at the end of `handleKeypress`. -/
def releaseLoop : List Nat → Sys → Sys
  | [], s => s
  | vkCode :: rest, s => releaseLoop rest (sleep 50 (keybd_event vkCode KEYEVENTF_KEYUP s))

/-- The key loop of `handleKeypress` with its local variables `pressedKeys` and
`heldModifiers`, followed by the release loop and the success response. -/
def keyLoop (lowerCase : Char → Char) (windowTitle : String) :
    List String → List String → List Nat → Sys → Response × Sys
  | [], pressedKeys, heldModifiers, s =>
    ({ status := "success",
       message := some ("Pressed keys " ++ formatStrings pressedKeys ++ " in window '"
         ++ windowTitle ++ "'"),
       windows := none, data := none },
     releaseLoop heldModifiers s)
  | key :: rest, pressedKeys, heldModifiers, s =>
    match vkCodeOf (toLower lowerCase key) with
    | none => (toJSON "error" ("Unknown key: " ++ key) none, s)
    | some vkCode =>
      if isModifierKey (toLower lowerCase key) then
        keyLoop lowerCase windowTitle rest (pressedKeys ++ [key]) (heldModifiers ++ [vkCode])
          (sleep 50 (keybd_event vkCode 0 s))
      else
        keyLoop lowerCase windowTitle rest (pressedKeys ++ [key]) heldModifiers
          (sleep 50 (keybd_event vkCode KEYEVENTF_KEYUP (sleep 50 (keybd_event vkCode 0 s))))

/-- The focus stage of `handleKeypress`: the restore call, the retry loop of five attempts
and the final poll whose answer decides whether the command goes on. -/
def focusWindow (hwnd : Nat) (s : Sys) : Bool × Sys :=
  waitForForeground hwnd 100 (focusLoop hwnd 5 (showWindow hwnd SW_RESTORE s))

def handleKeypress (lowerCase : Char → Char) (windowTitle : String) (keys : List String)
    (s : Sys) : Response × Sys :=
  let (hwnd, allWindows) := enumKeypress lowerCase windowTitle s.windows (0, [])
  if hwnd = 0 then
    (toJSON "error"
      ("Window not found: '" ++ windowTitle
        ++ "'. Use 'list_windows' action to see available windows.")
      (some { searched_for := windowTitle, available_windows := allWindows }), s)
  else
    let (ok, s3) := focusWindow hwnd s
    if !ok then
      (toJSON "error" ("Failed to focus window: '" ++ windowTitle ++ "'") none, s3)
    else
      keyLoop lowerCase windowTitle keys [] [] s3

/-- The request decoded from a `keypress` line. -/
structure KeypressRequest where
  action : String
  windowTitle : String
  keys : List String
  deriving DecidableEq, Repr

/-- The `keypress` branch of `parseMessage`, after the request has been decoded: the
validation of the required fields, then the handler. -/
def routeKeypress (lowerCase : Char → Char) (req : KeypressRequest) (s : Sys) :
    Response × Sys :=
  if req.windowTitle = "" then (toJSON "error" "Missing window_title field" none, s)
  else if req.keys.length = 0 then (toJSON "error" "Missing or empty keys array" none, s)
  else handleKeypress lowerCase req.windowTitle req.keys s

/-! ## Reference descriptions of the issued calls -/

/-- Is the call a key event. -/
def Call.isKey : Call → Bool
  | .keybd_event _ _ => true
  | _ => false

/-- The key events of a trace, in order. -/
def keyCalls (t : List Call) : List Call :=
  t.filter Call.isKey

/-- Stated from the specification: the calls for one resolved key. A modifier is pressed
and paced; any other key is pressed, paced, released and paced. -/
def pressCalls (isModifier : Bool) (vk : Nat) : List Call :=
  if isModifier then [.keybd_event vk 0, .sleep 50]
  else [.keybd_event vk 0, .sleep 50, .keybd_event vk KEYEVENTF_KEYUP, .sleep 50]

/-- Stated from the specification: the calls for the keys of a sequence, in request order;
a name without a key code contributes nothing. -/
def pressEvents (lowerCase : Char → Char) : List String → List Call
  | [] => []
  | key :: rest =>
    (match vkCodeOf (toLower lowerCase key) with
      | none => []
      | some vk => pressCalls (isModifierKey (toLower lowerCase key)) vk)
    ++ pressEvents lowerCase rest

/-- Stated from the specification: the codes of the modifiers of a sequence, in the order
in which they are pressed. -/
def heldCodes (lowerCase : Char → Char) : List String → List Nat
  | [] => []
  | key :: rest =>
    (match vkCodeOf (toLower lowerCase key) with
      | none => []
      | some vk => if isModifierKey (toLower lowerCase key) then [vk] else [])
    ++ heldCodes lowerCase rest

/-- Stated from the specification: every held modifier is released and paced. -/
def releaseEvents : List Nat → List Call
  | [] => []
  | vk :: rest => .keybd_event vk KEYEVENTF_KEYUP :: .sleep 50 :: releaseEvents rest

/-- Does the key name have a case in the key-code switch. -/
def resolves (lowerCase : Char → Char) (key : String) : Bool :=
  (vkCodeOf (toLower lowerCase key)).isSome

/-- The title test of the keypress enumeration callback. -/
def matchesTitle (lowerCase : Char → Char) (windowTitle : String) (w : Window) : Bool :=
  contains (toLower lowerCase w.title) (toLower lowerCase windowTitle)

/-- The shifted symbols with their unshifted base keys. -/
def shiftedPairs : List (String × String) :=
  [("!", "1"), ("@", "2"), ("#", "3"), ("$", "4"), ("%", "5"), ("^", "6"), ("&", "7"),
   ("*", "8"), ("(", "9"), (")", "0"), ("_", "-"), ("+", "="), ("\x7b", "["), ("\x7d", "]"),
   (":", ";"), ("\"", "'"), ("<", ","), (">", "."), ("?", "/"), ("~", "`")]

/-- Two windows whose titles both contain "notepad" up to case. -/
def notepadWindows : List Window :=
  [ { handle := 101, title := "Notepad", visible := true, minimized := false },
    { handle := 102, title := "notepad++ editor", visible := true, minimized := false } ]

/-! ## The command router and the connection loop -/

/-- The request decoded from a window-listing line. -/
structure ListWindowsRequest where
  action : String
  deriving DecidableEq, Repr

/-- The JSON codec of the Go library as the server uses it: `json.Unmarshal` into the
action-only struct, into `ListWindowsRequest` and into `KeypressRequest` (a field missing
from the line is left at its zero value; a failure carries the text of the error), and
`json.Marshal` of a response object. -/
structure Json where
  unmarshalAction : String → Except String String
  unmarshalListWindows : String → Except String ListWindowsRequest
  unmarshalKeypress : String → Except String KeypressRequest
  marshal : Response → String

/-- The router. The handlers hand back the response object; the text sent to the client is
`json.marshal` of it. -/
def parseMessage (json : Json) (lowerCase : Char → Char) (message : String) (s : Sys) :
    Response × Sys :=
  if message.length = 0 then (toJSON "error" "Empty message" none, s)
  else
    match json.unmarshalAction message with
    | .error err => (toJSON "error" ("Invalid JSON: " ++ err) none, s)
    | .ok action =>
      if action = "list_visible_windows" then
        match json.unmarshalListWindows message with
        | .error err =>
          (toJSON "error" ("Invalid list_visible_windows request: " ++ err) none, s)
        | .ok _ => handleListVisibleWindows s
      else if action = "list_all_windows" then
        match json.unmarshalListWindows message with
        | .error err => (toJSON "error" ("Invalid list_all_windows request: " ++ err) none, s)
        | .ok _ => handleListAllWindows s
      else if action = "keypress" then
        match json.unmarshalKeypress message with
        | .error err => (toJSON "error" ("Invalid keypress request: " ++ err) none, s)
        | .ok req => routeKeypress lowerCase req s
      else (toJSON "error" ("Unknown action: " ++ action) none, s)

/-- The largest line `bufio.Scanner` holds with its default buffer
(`bufio.MaxScanTokenSize`). -/
def MaxScanTokenSize : Nat := 64 * 1024

/-- The text `scanner.Text()` gives for a line: `bufio.ScanLines` drops one trailing
carriage return. -/
def dropCR (line : String) : String :=
  if line.data.getLast? = some '\r' then ⟨line.data.dropLast⟩ else line

/-- The loop of `handleConnection` over the lines that arrive on the connection (the input
split at line feeds), with the texts written to the connection so far. A line of
`MaxScanTokenSize` bytes or more makes `scanner.Scan()` fail with `ErrTooLong`, which ends
the loop; `writeFails k` tells whether the write issued after `k` successful writes reports
an error, which ends the loop too. -/
def handleConnection (json : Json) (lowerCase : Char → Char) (writeFails : Nat → Bool) :
    List String → Sys → List String → List String × Sys
  | [], s, written => (written, s)
  | line :: rest, s, written =>
    if MaxScanTokenSize ≤ line.utf8ByteSize then (written, s)
    else
      let message := dropCR line
      if message = "" then handleConnection json lowerCase writeFails rest s written
      else
        let (parsedMessage, s1) := parseMessage json lowerCase message s
        if writeFails written.length then (written, s1)
        else
          handleConnection json lowerCase writeFails rest s1
            (written ++ [json.marshal parsedMessage ++ "\n"])

/-- A line of 65536 letters. -/
def longLine : String :=
  ⟨List.replicate 65536 'a'⟩

/-- Stated from the specification: one response per non-empty message, in input order,
each the router's answer to that message alone, in the state of the window system at that
moment, followed by a newline. -/
def responses (json : Json) (lowerCase : Char → Char) : List String → Sys → List String
  | [], _ => []
  | message :: rest, s =>
    if message = "" then responses json lowerCase rest s
    else
      (json.marshal (parseMessage json lowerCase message s).1 ++ "\n")
        :: responses json lowerCase rest (parseMessage json lowerCase message s).2

/-- A stand-in for the JSON codec used to instantiate the theorems: it decodes a handful of
command lines and reports every other line as malformed; the marshalled text only shows the
status and the message. -/
def sampleJson : Json where
  unmarshalAction m :=
    if m = "\x7b\"action\":\"list_all_windows\"\x7d" then .ok "list_all_windows"
    else if m = "\x7b\"action\":\"keypress\",\"window_title\":\"notepad\",\"keys\":[\"a\"]\x7d"
      then .ok "keypress"
    else if m = "\x7b\"action\":\"keypress\",\"keys\":[\"a\"]\x7d" then .ok "keypress"
    else if m = "\x7b\"action\":\"keypress\",\"window_title\":\"notepad\"\x7d" then .ok "keypress"
    else if m = "\x7b\"action\":\"fly\"\x7d" then .ok "fly"
    else if m = "\x7b\x7d" then .ok ""
    else .error "invalid character"
  unmarshalListWindows m :=
    if m = "\x7b\"action\":\"list_all_windows\"\x7d" then .ok { action := "list_all_windows" }
    else .error "invalid character"
  unmarshalKeypress m :=
    if m = "\x7b\"action\":\"keypress\",\"window_title\":\"notepad\",\"keys\":[\"a\"]\x7d"
      then .ok { action := "keypress", windowTitle := "notepad", keys := ["a"] }
    else if m = "\x7b\"action\":\"keypress\",\"keys\":[\"a\"]\x7d"
      then .ok { action := "keypress", windowTitle := "", keys := ["a"] }
    else if m = "\x7b\"action\":\"keypress\",\"window_title\":\"notepad\"\x7d"
      then .ok { action := "keypress", windowTitle := "notepad", keys := [] }
    else .error "invalid character"
  marshal r := r.status ++ ": " ++ r.message.getD ""

/-! ## Observations on a trace -/

/-- Is the call a request for foreground focus. -/
def Call.isRequest : Call → Bool
  | .setForegroundWindow _ => true
  | _ => false

/-- The number of foreground requests in a trace. -/
def requestCount (t : List Call) : Nat :=
  (t.filter Call.isRequest).length

/-- Is the call a restore call. -/
def Call.isRestore : Call → Bool
  | .showWindow _ cmd => cmd = SW_RESTORE
  | _ => false

/-- Stated from the specification: a monitor that walks a trace and accepts it when no
foreground request follows a confirming poll. `polls` is the index of the next poll in the
oracle `foreground`, `confirmed` tells whether a poll has already reported the target. -/
def noRequestAfterConfirm (foreground : Nat → Nat) (hwnd : Nat) :
    Nat → Bool → List Call → Bool
  | _, _, [] => true
  | polls, confirmed, .getForegroundWindow :: t =>
    noRequestAfterConfirm foreground hwnd (polls + 1)
      (confirmed || decide (foreground polls = hwnd)) t
  | polls, confirmed, .setForegroundWindow _ :: t =>
    !confirmed && noRequestAfterConfirm foreground hwnd polls confirmed t
  | polls, confirmed, _ :: t => noRequestAfterConfirm foreground hwnd polls confirmed t

/-- The number of key-down events of a key code in a trace. -/
def downs (vk : Nat) (t : List Call) : Nat :=
  t.count (.keybd_event vk 0)

/-- The number of key-up events of a key code in a trace. -/
def ups (vk : Nat) (t : List Call) : Nat :=
  t.count (.keybd_event vk KEYEVENTF_KEYUP)

/-- All key names of the category lists of `getAllowedKeys`. -/
def allowedNames : List String :=
  (getAllowedKeys.map (fun p => p.2)).foldr (fun names acc => names ++ acc) []

end TCPKeyboard

/-! TCP-File-Reader: the embedding of `TCP-File-Reader/main.go`. A Go string is a sequence
of bytes here, since the content of a file need not be valid UTF-8. -/

namespace TCPFileReader

/-- The bytes of a Go string; each byte is its value. -/
abbrev Bytes := List Nat

/-- The line feed. -/
def LF : Nat := 10

/-- The carriage return. -/
def CR : Nat := 13

/-- The bytes of an ASCII text. -/
def ascii (s : String) : Bytes :=
  s.data.map Char.toNat

/-- Go `strings.HasSuffix(s, "\n")`. -/
def hasSuffixLF (s : Bytes) : Bool :=
  s.getLast? = some LF

/-- Go `strings.ReplaceAll(s, "\n", "\r\n")`. -/
def replaceAllLF : Bytes → Bytes
  | [] => []
  | b :: rest => if b = LF then CR :: LF :: replaceAllLF rest else b :: replaceAllLF rest

/-- The bytes `writeCRLF` hands to the connection. -/
def writeCRLF (s : Bytes) : Bytes :=
  if s = [] then [CR, LF]
  else
    let s1 := if !hasSuffixLF s then s ++ [LF] else s
    replaceAllLF s1

/-- Go `strings.Join(buf, "\n")`. -/
def joinLF : List Bytes → Bytes
  | [] => []
  | [line] => line
  | line :: next :: rest => line ++ LF :: joinLF (next :: rest)

/-- The largest line `bufio.Scanner` holds with its default buffer
(`bufio.MaxScanTokenSize`). -/
def MaxScanTokenSize : Nat := 64 * 1024

/-- The size in bytes of a string header, the element of the buffer (64-bit platform). -/
def stringSize : Nat := 16

/-- The largest allocation the Go runtime admits on a 64-bit platform (`maxAlloc`). -/
def maxAlloc : Nat := 2 ^ 48

/-- What a call of `tailFile` ends with: the text and a nil error, an error, or the end of
the process (a runtime panic or a fatal error of the runtime). -/
inductive Outcome where
  | value (out : Bytes)
  | failure (err : String)
  | crash (reason : String)
  deriving DecidableEq, Repr

/-- A file as `tailFile` reads it: what `io.ReadAll` returns, the lines of the content (the
content split at line feeds), and the error, if any, with which reading ends after these
lines. -/
structure File where
  readAll : Except String Bytes
  lines : List Bytes
  readErr : Option String

/-- The token `bufio.ScanLines` gives for a line: one trailing carriage return is dropped. -/
def dropCR (line : Bytes) : Bytes :=
  if line.getLast? = some CR then line.dropLast else line

/-- The scanner over the lines of a file: the tokens `scanner.Scan()` delivers and the error
`scanner.Err()` reports at the end. A line of `MaxScanTokenSize` bytes or more ends the scan
with `ErrTooLong`. -/
def scanFile : List Bytes → Option String → List Bytes × Option String
  | [], readErr => ([], readErr)
  | line :: rest, readErr =>
    if MaxScanTokenSize ≤ line.length then ([], some "bufio.Scanner: token too long")
    else ((dropCR line) :: (scanFile rest readErr).1, (scanFile rest readErr).2)

/-- The scanning loop of `tailFile` with its sliding buffer `buf`. -/
def tailLoop (n : Int) : List Bytes → List Bytes → List Bytes
  | [], buf => buf
  | line :: rest, buf =>
    let buf1 := buf ++ [line]
    if (buf1.length : Int) > n then tailLoop n rest (buf1.drop 1)
    else tailLoop n rest buf1

/-- The function `tailFile`; `opened` is the result of `os.Open(path)` and `memory` the
number of bytes the runtime can obtain for the buffer. `make([]string, 0, n)` panics when
the `n` string headers exceed `maxAlloc`, and the process dies when they exceed the
memory. -/
def tailFile (memory : Nat) (opened : Except String File) (n : Int) : Outcome :=
  match opened with
  | .error err => .failure err
  | .ok f =>
    if n ≤ 0 then
      match f.readAll with
      | .error err => .failure err
      | .ok b => .value b
    else if (maxAlloc : Int) < stringSize * n then .crash "makeslice: cap out of range"
    else if (memory : Int) < stringSize * n then .crash "out of memory"
    else
      let buf := tailLoop n (scanFile f.lines f.readErr).1 []
      match (scanFile f.lines f.readErr).2 with
      | some err => .failure err
      | none => .value (joinLF buf ++ [LF])

end TCPFileReader

namespace TCPKeyboard

/-! ## Snapshots that differ in visibility -/

/-- Two windows that agree on everything but the visible flag. -/
def sameUpToVisible (a b : Window) : Prop :=
  a.handle = b.handle ∧ a.title = b.title ∧ a.minimized = b.minimized

/-- The state with another enumeration of windows, everything else unchanged. -/
def withWindows (s : Sys) (ws : List Window) : Sys :=
  { s with windows := ws }

/-! ## Frame lemmas: what the stages leave untouched and what they append -/

@[simp] theorem emit_trace (s : Sys) (c : Call) : (s.emit c).trace = s.trace ++ [c] := rfl

@[simp] theorem sleep_trace (ms : Nat) (s : Sys) : (sleep ms s).trace = s.trace ++ [.sleep ms] :=
  rfl

@[simp] theorem sleep_foreground (ms : Nat) (s : Sys) : (sleep ms s).foreground = s.foreground :=
  rfl

@[simp] theorem keybd_event_trace (vk flags : Nat) (s : Sys) :
    (keybd_event vk flags s).trace = s.trace ++ [.keybd_event vk flags] := rfl

@[simp] theorem getForegroundWindow_trace (s : Sys) :
    (getForegroundWindow s).2.trace = s.trace ++ [.getForegroundWindow] := rfl

@[simp] theorem getForegroundWindow_foreground (s : Sys) :
    (getForegroundWindow s).2.foreground = s.foreground := rfl

@[simp] theorem getForegroundWindow_fst (s : Sys) :
    (getForegroundWindow s).1 = s.foreground s.polls := rfl

@[simp] theorem setForegroundWindow_trace (hwnd : Nat) (s : Sys) :
    (setForegroundWindow hwnd s).trace = s.trace ++ [.setForegroundWindow hwnd] := rfl

@[simp] theorem setForegroundWindow_foreground (hwnd : Nat) (s : Sys) :
    (setForegroundWindow hwnd s).foreground = s.foreground := rfl

@[simp] theorem showWindow_trace (hwnd cmd : Nat) (s : Sys) :
    (showWindow hwnd cmd s).trace = s.trace ++ [.showWindow hwnd cmd] := rfl

@[simp] theorem showWindow_foreground (hwnd cmd : Nat) (s : Sys) :
    (showWindow hwnd cmd s).foreground = s.foreground := rfl

@[simp] theorem keyCalls_append (t u : List Call) : keyCalls (t ++ u) = keyCalls t ++ keyCalls u := by
  simp [keyCalls]

theorem waitLoop_frame (hwnd deadline : Nat) :
    ∀ (fuel : Nat) (s : Sys),
      (waitLoop hwnd deadline fuel s).2.foreground = s.foreground ∧
      keyCalls (waitLoop hwnd deadline fuel s).2.trace = keyCalls s.trace := by
  intro fuel
  induction fuel with
  | zero => intro s; simp [waitLoop]
  | succ n ih =>
    intro s
    unfold waitLoop
    by_cases hnow : s.now < deadline
    · by_cases hfg : s.foreground s.polls = hwnd
      · simp [hnow, getForegroundWindow, hfg, keyCalls, Call.isKey, Sys.emit]
      · have h := ih (sleep 25 (getForegroundWindow s).2)
        simp [hnow, getForegroundWindow, hfg] at h ⊢
        simpa [keyCalls, Call.isKey, Sys.emit, sleep] using h
    · simp [hnow]

/-- The fuel of `waitForForeground` is enough: once the fuel covers the time left to the
deadline, more fuel does not change the outcome, so the loop always ends on its own exit
conditions (foreground confirmed, or deadline reached). -/
theorem waitLoop_fuel (hwnd deadline : Nat) :
    ∀ (fuel extra : Nat) (s : Sys), deadline ≤ s.now + 25 * fuel →
      waitLoop hwnd deadline (fuel + extra) s = waitLoop hwnd deadline fuel s := by
  intro fuel
  induction fuel with
  | zero =>
    intro extra s h
    cases extra with
    | zero => rfl
    | succ k =>
      have hnow : ¬ s.now < deadline := by omega
      rw [Nat.zero_add]
      simp [waitLoop, hnow]
  | succ n ih =>
    intro extra s h
    have hfuel : n + 1 + extra = (n + extra) + 1 := by omega
    rw [hfuel]
    unfold waitLoop
    by_cases hnow : s.now < deadline
    · have hstep : deadline ≤ (sleep 25 (getForegroundWindow s).2).now + 25 * n := by
        show deadline ≤ s.now + 25 + 25 * n
        omega
      simp only [hnow, if_true]
      rw [ih extra (sleep 25 (getForegroundWindow s).2) hstep]
    · simp only [hnow, if_false]

theorem waitForForeground_fuel (hwnd timeout extra : Nat) (s : Sys) :
    waitLoop hwnd (s.now + timeout) (timeout + 1 + extra) s = waitForForeground hwnd timeout s :=
  waitLoop_fuel hwnd (s.now + timeout) (timeout + 1) extra s (by omega)

theorem waitLoop_never (hwnd deadline : Nat) :
    ∀ (fuel : Nat) (s : Sys), (∀ k, s.foreground k ≠ hwnd) →
      (waitLoop hwnd deadline fuel s).1 = false := by
  intro fuel
  induction fuel with
  | zero => intro s _; simp [waitLoop]
  | succ n ih =>
    intro s hs
    unfold waitLoop
    by_cases hnow : s.now < deadline
    · have h := ih (sleep 25 (getForegroundWindow s).2) (by simpa using hs)
      simp [hnow, getForegroundWindow, hs s.polls] at h ⊢
      exact h
    · simp [hnow]

theorem focusLoop_frame (hwnd : Nat) :
    ∀ (n : Nat) (s : Sys),
      (focusLoop hwnd n s).foreground = s.foreground ∧
      keyCalls (focusLoop hwnd n s).trace = keyCalls s.trace := by
  intro n
  induction n with
  | zero => intro s; simp [focusLoop]
  | succ n ih =>
    intro s
    have hw := waitLoop_frame hwnd ((setForegroundWindow hwnd s).now + 350) (350 + 1)
      (setForegroundWindow hwnd s)
    unfold focusLoop
    simp only [waitForForeground]
    cases hres : waitLoop hwnd ((setForegroundWindow hwnd s).now + 350) (350 + 1)
      (setForegroundWindow hwnd s) with
    | mk ok s1 =>
      rw [hres] at hw
      cases ok with
      | true => simpa [keyCalls, Call.isKey] using hw
      | false =>
        have h := ih (sleep 75 s1)
        simp only [Bool.false_eq_true, if_false]
        refine ⟨h.1.trans (by simpa using hw.1), h.2.trans ?_⟩
        simpa [keyCalls, Call.isKey] using hw.2

theorem focusWindow_frame (hwnd : Nat) (s : Sys) :
    (focusWindow hwnd s).2.foreground = s.foreground ∧
    keyCalls (focusWindow hwnd s).2.trace = keyCalls s.trace := by
  have h1 := focusLoop_frame hwnd 5 (showWindow hwnd SW_RESTORE s)
  have h2 := waitLoop_frame hwnd ((focusLoop hwnd 5 (showWindow hwnd SW_RESTORE s)).now + 100)
    (100 + 1) (focusLoop hwnd 5 (showWindow hwnd SW_RESTORE s))
  refine ⟨h2.1.trans (by simpa using h1.1), h2.2.trans (h1.2.trans ?_)⟩
  simp [keyCalls, Call.isKey]

theorem focusWindow_never (hwnd : Nat) (s : Sys) (hs : ∀ k, s.foreground k ≠ hwnd) :
    (focusWindow hwnd s).1 = false := by
  have h1 := focusLoop_frame hwnd 5 (showWindow hwnd SW_RESTORE s)
  exact waitLoop_never hwnd _ _ _ (by simpa [h1.1] using hs)

/-! ## The key loop -/

theorem releaseLoop_trace :
    ∀ (held : List Nat) (s : Sys), (releaseLoop held s).trace = s.trace ++ releaseEvents held := by
  intro held
  induction held with
  | nil => intro s; simp [releaseLoop, releaseEvents]
  | cons vk rest ih => intro s; simp [releaseLoop, releaseEvents, ih]

/-- The response of the success path for the given pressed keys. -/
theorem keyLoop_nil (lowerCase : Char → Char) (windowTitle : String) (pressed : List String)
    (held : List Nat) (s : Sys) :
    keyLoop lowerCase windowTitle [] pressed held s =
      ({ status := "success",
         message := some ("Pressed keys " ++ formatStrings pressed ++ " in window '"
           ++ windowTitle ++ "'"),
         windows := none, data := none }, releaseLoop held s) := rfl

theorem keyLoop_resolved (lowerCase : Char → Char) (windowTitle : String) :
    ∀ (keys pressed : List String) (held : List Nat) (s : Sys),
      (∀ k ∈ keys, resolves lowerCase k = true) →
      (keyLoop lowerCase windowTitle keys pressed held s).1 =
        { status := "success",
          message := some ("Pressed keys " ++ formatStrings (pressed ++ keys) ++ " in window '"
            ++ windowTitle ++ "'"),
          windows := none, data := none } ∧
      (keyLoop lowerCase windowTitle keys pressed held s).2.trace =
        s.trace ++ (pressEvents lowerCase keys
          ++ releaseEvents (held ++ heldCodes lowerCase keys)) := by
  intro keys
  induction keys with
  | nil =>
    intro pressed held s _
    simp [keyLoop_nil, releaseLoop_trace, pressEvents, heldCodes]
  | cons key rest ih =>
    intro pressed held s hall
    have hkey : resolves lowerCase key = true := hall key (List.mem_cons_self _ _)
    have hrest : ∀ k ∈ rest, resolves lowerCase k = true :=
      fun k hk => hall k (List.mem_cons_of_mem _ hk)
    obtain ⟨vk, hvk⟩ := Option.isSome_iff_exists.mp hkey
    unfold keyLoop
    simp only [hvk]
    cases hmod : isModifierKey (toLower lowerCase key) with
    | true =>
      have h := ih (pressed ++ [key]) (held ++ [vk]) (sleep 50 (keybd_event vk 0 s)) hrest
      simp only [hmod, if_true]
      refine ⟨by simpa using h.1, ?_⟩
      rw [h.2]
      simp [pressEvents, heldCodes, hvk, hmod, pressCalls]
    | false =>
      have h := ih (pressed ++ [key]) held
        (sleep 50 (keybd_event vk KEYEVENTF_KEYUP (sleep 50 (keybd_event vk 0 s)))) hrest
      simp only [hmod, Bool.false_eq_true, if_false]
      refine ⟨by simpa using h.1, ?_⟩
      rw [h.2]
      simp [pressEvents, heldCodes, hvk, hmod, pressCalls]

theorem pressEvents_append (lowerCase : Char → Char) (pre post : List String) :
    pressEvents lowerCase (pre ++ post) = pressEvents lowerCase pre ++ pressEvents lowerCase post := by
  induction pre with
  | nil => simp [pressEvents]
  | cons key rest ih => simp [pressEvents, ih]

theorem keyLoop_unknown (lowerCase : Char → Char) (windowTitle : String) :
    ∀ (pre : List String) (bad : String) (post pressed : List String) (held : List Nat) (s : Sys),
      (∀ k ∈ pre, resolves lowerCase k = true) → resolves lowerCase bad = false →
      (keyLoop lowerCase windowTitle (pre ++ bad :: post) pressed held s).1 =
        toJSON "error" ("Unknown key: " ++ bad) none ∧
      (keyLoop lowerCase windowTitle (pre ++ bad :: post) pressed held s).2.trace =
        s.trace ++ pressEvents lowerCase pre := by
  intro pre
  induction pre with
  | nil =>
    intro bad post pressed held s _ hbad
    have hnone : vkCodeOf (toLower lowerCase bad) = none := by
      simpa [resolves] using hbad
    simp [keyLoop, hnone, pressEvents]
  | cons key rest ih =>
    intro bad post pressed held s hall hbad
    have hkey : resolves lowerCase key = true := hall key (List.mem_cons_self _ _)
    have hrest : ∀ k ∈ rest, resolves lowerCase k = true :=
      fun k hk => hall k (List.mem_cons_of_mem _ hk)
    obtain ⟨vk, hvk⟩ := Option.isSome_iff_exists.mp hkey
    rw [List.cons_append]
    unfold keyLoop
    simp only [hvk]
    cases hmod : isModifierKey (toLower lowerCase key) with
    | true =>
      have h := ih bad post (pressed ++ [key]) (held ++ [vk]) (sleep 50 (keybd_event vk 0 s))
        hrest hbad
      simp only [hmod, if_true]
      refine ⟨h.1, ?_⟩
      rw [h.2]
      simp [pressEvents, hvk, hmod, pressCalls]
    | false =>
      have h := ih bad post (pressed ++ [key]) held
        (sleep 50 (keybd_event vk KEYEVENTF_KEYUP (sleep 50 (keybd_event vk 0 s)))) hrest hbad
      simp only [hmod, Bool.false_eq_true, if_false]
      refine ⟨h.1, ?_⟩
      rw [h.2]
      simp [pressEvents, hvk, hmod, pressCalls]

/-! ## Unfolding `handleKeypress` along its three outcomes -/

theorem handleKeypress_not_found (lowerCase : Char → Char) (windowTitle : String)
    (keys : List String) (s : Sys)
    (h : (enumKeypress lowerCase windowTitle s.windows (0, [])).1 = 0) :
    handleKeypress lowerCase windowTitle keys s =
      (toJSON "error"
        ("Window not found: '" ++ windowTitle
          ++ "'. Use 'list_windows' action to see available windows.")
        (some { searched_for := windowTitle,
                available_windows := (enumKeypress lowerCase windowTitle s.windows (0, [])).2 }),
       s) := by
  unfold handleKeypress
  cases hres : enumKeypress lowerCase windowTitle s.windows (0, []) with
  | mk hwnd allWindows =>
    rw [hres] at h
    simp at h
    simp [h]

theorem handleKeypress_unfocused (lowerCase : Char → Char) (windowTitle : String)
    (keys : List String) (s : Sys) (hwnd : Nat)
    (hres : (enumKeypress lowerCase windowTitle s.windows (0, [])).1 = hwnd) (hne : hwnd ≠ 0)
    (hfocus : (focusWindow hwnd s).1 = false) :
    handleKeypress lowerCase windowTitle keys s =
      (toJSON "error" ("Failed to focus window: '" ++ windowTitle ++ "'") none,
       (focusWindow hwnd s).2) := by
  unfold handleKeypress
  cases hen : enumKeypress lowerCase windowTitle s.windows (0, []) with
  | mk h allWindows =>
    rw [hen] at hres
    simp at hres
    subst hres
    cases hf : focusWindow h s with
    | mk ok s3 =>
      rw [hf] at hfocus
      simp at hfocus
      simp [hne, hf, hfocus]

theorem handleKeypress_focused (lowerCase : Char → Char) (windowTitle : String)
    (keys : List String) (s : Sys) (hwnd : Nat)
    (hres : (enumKeypress lowerCase windowTitle s.windows (0, [])).1 = hwnd) (hne : hwnd ≠ 0)
    (hfocus : (focusWindow hwnd s).1 = true) :
    handleKeypress lowerCase windowTitle keys s =
      keyLoop lowerCase windowTitle keys [] [] (focusWindow hwnd s).2 := by
  unfold handleKeypress
  cases hen : enumKeypress lowerCase windowTitle s.windows (0, []) with
  | mk h allWindows =>
    rw [hen] at hres
    simp at hres
    subst hres
    cases hf : focusWindow h s with
    | mk ok s3 =>
      rw [hf] at hfocus
      simp at hfocus
      simp [hne, hf, hfocus]

/-! ## Focus that is never confirmed -/

theorem handleKeypress_focus_never_confirmed (lowerCase : Char → Char) (windowTitle : String)
    (keys : List String) (s : Sys) (hwnd : Nat)
    (hres : (enumKeypress lowerCase windowTitle s.windows (0, [])).1 = hwnd) (hne : hwnd ≠ 0)
    (hnever : ∀ k, s.foreground k ≠ hwnd) :
    (handleKeypress lowerCase windowTitle keys s).1 =
      toJSON "error" ("Failed to focus window: '" ++ windowTitle ++ "'") none ∧
    keyCalls (handleKeypress lowerCase windowTitle keys s).2.trace = keyCalls s.trace := by
  rw [handleKeypress_unfocused lowerCase windowTitle keys s hwnd hres hne
    (focusWindow_never hwnd s hnever)]
  exact ⟨rfl, (focusWindow_frame hwnd s).2⟩

set_option maxRecDepth 1000000 in
/-- C1 (evaluation at the failing input): the window "Notepad" is resolved, every foreground
poll reports another window (handle 999), and the request asks for the key "a". The command
is answered with the error "Failed to focus window" and no key event is issued, whereas the
claim has the keys injected and no error response. -/
theorem handleKeypress_unconfirmed_focus_aborts :
    (enumKeypress sampleCaseTable "notepad" notepadWindows (0, [])).1 = 101 ∧
    (handleKeypress sampleCaseTable "notepad" ["a"]
        (Sys.init notepadWindows (fun _ => 999))).1 =
      { status := "error", message := some "Failed to focus window: 'notepad'",
        windows := none, data := none } ∧
    keyCalls (handleKeypress sampleCaseTable "notepad" ["a"]
        (Sys.init notepadWindows (fun _ => 999))).2.trace = [] := by
  decide

/-! ## Key injection on a focused window -/

/-- C2: on a resolved and focused window, a key sequence in which every name resolves issues,
after the calls of the focus stage (which hold no key event), exactly: per key in request
order key-down alone for a modifier and key-down then key-up otherwise, then key-up for each
held modifier in the order pressed, every event followed by a 50 ms sleep. For "shift", "a"
these are down 0x10, down 0x41, up 0x41, up 0x10. -/
theorem handleKeypress_resolved_sequence_trace (lowerCase : Char → Char) (windowTitle : String)
    (s : Sys) (hwnd : Nat)
    (hres : (enumKeypress lowerCase windowTitle s.windows (0, [])).1 = hwnd) (hne : hwnd ≠ 0)
    (hfocus : (focusWindow hwnd s).1 = true) :
    (∀ keys : List String, (∀ k ∈ keys, resolves lowerCase k = true) →
      (handleKeypress lowerCase windowTitle keys s).2.trace =
        (focusWindow hwnd s).2.trace
          ++ (pressEvents lowerCase keys ++ releaseEvents (heldCodes lowerCase keys))) ∧
    keyCalls (focusWindow hwnd s).2.trace = keyCalls s.trace ∧
    (handleKeypress lowerCase windowTitle ["shift", "a"] s).2.trace =
      (focusWindow hwnd s).2.trace
        ++ [.keybd_event 0x10 0, .sleep 50, .keybd_event 0x41 0, .sleep 50,
            .keybd_event 0x41 KEYEVENTF_KEYUP, .sleep 50,
            .keybd_event 0x10 KEYEVENTF_KEYUP, .sleep 50] := by
  have hgen : ∀ keys : List String, (∀ k ∈ keys, resolves lowerCase k = true) →
      (handleKeypress lowerCase windowTitle keys s).2.trace =
        (focusWindow hwnd s).2.trace
          ++ (pressEvents lowerCase keys ++ releaseEvents (heldCodes lowerCase keys)) := by
    intro keys hall
    rw [handleKeypress_focused lowerCase windowTitle keys s hwnd hres hne hfocus]
    simpa using (keyLoop_resolved lowerCase windowTitle keys [] [] (focusWindow hwnd s).2 hall).2
  refine ⟨hgen, (focusWindow_frame hwnd s).2, ?_⟩
  have hall : ∀ k ∈ ["shift", "a"], resolves lowerCase k = true := by
    intro k hk
    simp only [List.mem_cons, List.mem_singleton, List.not_mem_nil, or_false] at hk
    rcases hk with rfl | rfl <;> rfl
  rw [hgen _ hall]
  rfl

/-- C2 (instance): the sequence "ctrl", "Shift", "x" on the focused window "Notepad". -/
theorem handleKeypress_resolved_sequence_trace_witness :
    (handleKeypress sampleCaseTable "notepad" ["ctrl", "Shift", "x"]
        (Sys.init notepadWindows (fun _ => 101))).2.trace =
      (focusWindow 101 (Sys.init notepadWindows (fun _ => 101))).2.trace
        ++ [.keybd_event 0x11 0, .sleep 50, .keybd_event 0x10 0, .sleep 50,
            .keybd_event 0x58 0, .sleep 50, .keybd_event 0x58 KEYEVENTF_KEYUP, .sleep 50,
            .keybd_event 0x11 KEYEVENTF_KEYUP, .sleep 50,
            .keybd_event 0x10 KEYEVENTF_KEYUP, .sleep 50] :=
  (handleKeypress_resolved_sequence_trace sampleCaseTable "notepad"
    (Sys.init notepadWindows (fun _ => 101)) 101 (by decide) (by decide) (by decide)).1
    ["ctrl", "Shift", "x"] (by decide)

/-- C3: on a resolved and focused window, a key sequence whose first unresolvable name is at
index i issues exactly the events of the keys before index i (no event for a later key, no
key-up for a modifier held so far) and answers with the error "Unknown key: " followed by
that name as given. For "a", "zz-unknown", "b" only down 0x41 and up 0x41 are issued. -/
theorem handleKeypress_unknown_key_aborts (lowerCase : Char → Char) (windowTitle : String)
    (s : Sys) (hwnd : Nat)
    (hres : (enumKeypress lowerCase windowTitle s.windows (0, [])).1 = hwnd) (hne : hwnd ≠ 0)
    (hfocus : (focusWindow hwnd s).1 = true) :
    (∀ (keys : List String) (i : Nat) (hi : i < keys.length),
      (∀ k ∈ keys.take i, resolves lowerCase k = true) → resolves lowerCase keys[i] = false →
      (handleKeypress lowerCase windowTitle keys s).1 =
        toJSON "error" ("Unknown key: " ++ keys[i]) none ∧
      (handleKeypress lowerCase windowTitle keys s).2.trace =
        (focusWindow hwnd s).2.trace ++ pressEvents lowerCase (keys.take i)) ∧
    (∀ (modifier : Bool) (vk : Nat),
      .keybd_event vk KEYEVENTF_KEYUP ∈ pressCalls modifier vk ↔ modifier = false) ∧
    (handleKeypress lowerCase windowTitle ["a", "zz-unknown", "b"] s).1 =
      { status := "error", message := some "Unknown key: zz-unknown", windows := none,
        data := none } ∧
    (handleKeypress lowerCase windowTitle ["a", "zz-unknown", "b"] s).2.trace =
      (focusWindow hwnd s).2.trace
        ++ [.keybd_event 0x41 0, .sleep 50, .keybd_event 0x41 KEYEVENTF_KEYUP, .sleep 50] := by
  have hgen : ∀ (keys : List String) (i : Nat) (hi : i < keys.length),
      (∀ k ∈ keys.take i, resolves lowerCase k = true) → resolves lowerCase keys[i] = false →
      (handleKeypress lowerCase windowTitle keys s).1 =
        toJSON "error" ("Unknown key: " ++ keys[i]) none ∧
      (handleKeypress lowerCase windowTitle keys s).2.trace =
        (focusWindow hwnd s).2.trace ++ pressEvents lowerCase (keys.take i) := by
    intro keys i hi hpre hbad
    have hsplit : keys = keys.take i ++ keys[i] :: keys.drop (i + 1) := by
      rw [← List.drop_eq_getElem_cons hi, List.take_append_drop]
    have h := keyLoop_unknown lowerCase windowTitle (keys.take i) keys[i] (keys.drop (i + 1))
      [] [] (focusWindow hwnd s).2 hpre hbad
    rw [← hsplit] at h
    rw [handleKeypress_focused lowerCase windowTitle keys s hwnd hres hne hfocus]
    exact h
  refine ⟨hgen, ?_, ?_⟩
  · intro modifier vk
    cases modifier <;> simp [pressCalls, KEYEVENTF_KEYUP]
  · have h := hgen ["a", "zz-unknown", "b"] 1 (by decide)
      (by intro k hk
          simp only [List.take, List.mem_singleton] at hk
          subst hk; rfl)
      (by rfl)
    exact h

/-- C3 (instance): the sequence "shift", "a", "??", "b" on the focused window "Notepad":
Shift is pressed and left held, "a" is pressed and released, nothing is issued for "b". -/
theorem handleKeypress_unknown_key_aborts_witness :
    (handleKeypress sampleCaseTable "notepad" ["shift", "a", "??", "b"]
        (Sys.init notepadWindows (fun _ => 101))).1 =
      toJSON "error" "Unknown key: ??" none ∧
    (handleKeypress sampleCaseTable "notepad" ["shift", "a", "??", "b"]
        (Sys.init notepadWindows (fun _ => 101))).2.trace =
      (focusWindow 101 (Sys.init notepadWindows (fun _ => 101))).2.trace
        ++ [.keybd_event 0x10 0, .sleep 50, .keybd_event 0x41 0, .sleep 50,
            .keybd_event 0x41 KEYEVENTF_KEYUP, .sleep 50] :=
  (handleKeypress_unknown_key_aborts sampleCaseTable "notepad"
    (Sys.init notepadWindows (fun _ => 101)) 101 (by decide) (by decide) (by decide)).1
    ["shift", "a", "??", "b"] 2 (by decide) (by decide) (by decide)

/-! ## Strings: lowercasing and substring search -/

theorem unicodeToLower_ascii (lowerCase lowerCase2 : Char → Char) (r : Char)
    (h : r.toNat ≤ 0x7F) : unicodeToLower lowerCase r = unicodeToLower lowerCase2 r := by
  simp [unicodeToLower, h]

theorem toLower_ascii (lowerCase lowerCase2 : Char → Char) (s : String)
    (h : ∀ r ∈ s.data, r.toNat ≤ 0x7F) : toLower lowerCase s = toLower lowerCase2 s := by
  unfold toLower
  congr 1
  exact List.map_congr_left (fun r hr => unicodeToLower_ascii lowerCase lowerCase2 r (h r hr))

theorem toLower_data (lowerCase : Char → Char) (s : String) :
    (toLower lowerCase s).data = s.data.map (unicodeToLower lowerCase) := rfl

theorem toLower_eq_empty (lowerCase : Char → Char) (s : String) :
    toLower lowerCase s = "" ↔ s = "" := by
  constructor
  · intro h
    have hd : (toLower lowerCase s).data = [] := by rw [h]
    rw [toLower_data, List.map_eq_nil_iff] at hd
    cases s with
    | mk d => simp at hd; subst hd; rfl
  · intro h; subst h; rfl

theorem toLower_idem (lowerCase : Char → Char)
    (hidem : ∀ r, unicodeToLower lowerCase (unicodeToLower lowerCase r) = unicodeToLower lowerCase r)
    (s : String) : toLower lowerCase (toLower lowerCase s) = toLower lowerCase s := by
  unfold toLower
  congr 1
  simp [List.map_map, Function.comp_def, hidem]

theorem containsChars_iff_infix : ∀ (s sub : List Char), containsChars s sub = true ↔ sub <:+: s := by
  intro s
  induction s with
  | nil => intro sub; simp [containsChars, List.isEmpty_iff]
  | cons c s ih =>
    intro sub
    simp only [containsChars, Bool.or_eq_true, List.isPrefixOf_iff_prefix, ih,
      List.infix_cons_iff]

theorem contains_iff_infix (s substr : String) : contains s substr = true ↔ substr.data <:+: s.data :=
  containsChars_iff_infix s.data substr.data

theorem matchesTitle_iff (lowerCase : Char → Char) (windowTitle : String) (w : Window) :
    matchesTitle lowerCase windowTitle w = true ↔
      (toLower lowerCase windowTitle).data <:+: (toLower lowerCase w.title).data :=
  contains_iff_infix _ _

theorem matchesTitle_untitled (lowerCase : Char → Char) (windowTitle : String) (w : Window)
    (hpat : windowTitle ≠ "") (hw : w.title = "") : matchesTitle lowerCase windowTitle w = false := by
  have hne : (toLower lowerCase windowTitle).data ≠ [] := by
    intro h
    apply hpat
    apply (toLower_eq_empty lowerCase windowTitle).mp
    cases hl : toLower lowerCase windowTitle with
    | mk d => rw [hl] at h; simp at h; subst h; rfl
  cases hm : matchesTitle lowerCase windowTitle w with
  | false => rfl
  | true =>
    exfalso
    rw [matchesTitle_iff, hw] at hm
    exact hne (List.infix_nil.mp hm)

/-! ## Window enumeration -/

/-- The non-empty titles of a list of windows, in order. -/
theorem listAllTitles_eq (ws : List Window) :
    listAllTitles ws = (ws.map (fun w => w.title)).filter (fun t => decide (t ≠ "")) := by
  induction ws with
  | nil => rfl
  | cons w ws ih =>
    by_cases h : w.title = "" <;> simp [listAllTitles, h, ih]

theorem listVisibleTitles_eq (ws : List Window) :
    listVisibleTitles ws =
      ((ws.filter (fun w => w.visible)).map (fun w => w.title)).filter
        (fun t => decide (t ≠ "")) := by
  induction ws with
  | nil => rfl
  | cons w ws ih =>
    cases hv : w.visible <;> by_cases h : w.title = "" <;>
      simp [listVisibleTitles, hv, h, ih]

theorem listVisibleTitles_sublist (ws : List Window) :
    (listVisibleTitles ws).Sublist (listAllTitles ws) := by
  induction ws with
  | nil => exact List.Sublist.slnil
  | cons w ws ih =>
    cases hv : w.visible <;> by_cases h : w.title = "" <;>
      simp [listVisibleTitles, listAllTitles, hv, h, ih]

theorem enumKeypress_no_match (lowerCase : Char → Char) (windowTitle : String) :
    ∀ (ws : List Window) (hwnd : Nat) (allWindows : List String),
      (∀ w ∈ ws, matchesTitle lowerCase windowTitle w = false) →
      enumKeypress lowerCase windowTitle ws (hwnd, allWindows) =
        (hwnd, allWindows ++ listAllTitles ws) := by
  intro ws
  induction ws with
  | nil => intro hwnd allWindows _; simp [enumKeypress, listAllTitles]
  | cons w ws ih =>
    intro hwnd allWindows hno
    have hw : contains (toLower lowerCase w.title) (toLower lowerCase windowTitle) = false :=
      hno w (List.mem_cons_self _ _)
    have hrest : ∀ u ∈ ws, matchesTitle lowerCase windowTitle u = false :=
      fun u hu => hno u (List.mem_cons_of_mem _ hu)
    unfold enumKeypress
    simp only [hw, Bool.false_eq_true, if_false]
    rw [ih _ _ hrest]
    by_cases h : w.title = "" <;> simp [h, listAllTitles]

theorem enumKeypress_first_match (lowerCase : Char → Char) (windowTitle : String) :
    ∀ (pre : List Window) (w : Window) (post : List Window) (hwnd : Nat)
      (allWindows : List String),
      (∀ u ∈ pre, matchesTitle lowerCase windowTitle u = false) →
      matchesTitle lowerCase windowTitle w = true →
      enumKeypress lowerCase windowTitle (pre ++ w :: post) (hwnd, allWindows) =
        (w.handle, allWindows ++ listAllTitles (pre ++ [w])) := by
  intro pre
  induction pre with
  | nil =>
    intro w post hwnd allWindows _ hw
    have hw2 : contains (toLower lowerCase w.title) (toLower lowerCase windowTitle) = true := hw
    unfold enumKeypress
    simp only [List.nil_append, hw2, if_true]
    by_cases h : w.title = "" <;> simp [h, listAllTitles]
  | cons u pre ih =>
    intro w post hwnd allWindows hno hw
    have hu : contains (toLower lowerCase u.title) (toLower lowerCase windowTitle) = false :=
      hno u (List.mem_cons_self _ _)
    have hrest : ∀ v ∈ pre, matchesTitle lowerCase windowTitle v = false :=
      fun v hv => hno v (List.mem_cons_of_mem _ hv)
    rw [List.cons_append]
    unfold enumKeypress
    simp only [hu, Bool.false_eq_true, if_false]
    rw [ih w post _ _ hrest hw]
    by_cases h : u.title = "" <;> simp [h, listAllTitles]

/-- Every window list either has no matching window or splits at its first matching one. -/
theorem first_match_split (lowerCase : Char → Char) (windowTitle : String) (ws : List Window) :
    (∀ w ∈ ws, matchesTitle lowerCase windowTitle w = false) ∨
    ∃ pre w post, ws = pre ++ w :: post ∧
      (∀ u ∈ pre, matchesTitle lowerCase windowTitle u = false) ∧
      matchesTitle lowerCase windowTitle w = true := by
  induction ws with
  | nil => left; simp
  | cons w ws ih =>
    cases hw : matchesTitle lowerCase windowTitle w with
    | true => right; exact ⟨[], w, ws, rfl, by simp, hw⟩
    | false =>
      rcases ih with hno | ⟨pre, v, post, hsplit, hpre, hv⟩
      · left
        intro u hu
        rcases List.mem_cons.mp hu with rfl | hu
        · exact hw
        · exact hno u hu
      · right
        refine ⟨w :: pre, v, post, by rw [hsplit]; rfl, ?_, hv⟩
        intro u hu
        rcases List.mem_cons.mp hu with rfl | hu
        · exact hw
        · exact hpre u hu

theorem not_infix_iff (lowerCase : Char → Char) (windowTitle : String) (w : Window) :
    ¬ (toLower lowerCase windowTitle).data <:+: (toLower lowerCase w.title).data ↔
      matchesTitle lowerCase windowTitle w = false := by
  rw [← matchesTitle_iff]
  simp

/-! ## Window resolution -/

/-- C5: the handle `handleKeypress` resolves is that of the first window, in enumeration
order, whose lowercased title contains the lowercased pattern as a substring; for windows with
non-null handles no window is resolved (the handle stays 0) exactly when no title matches; with
the windows "Notepad" and "notepad++ editor" the pattern "notepad" resolves "Notepad". -/
theorem enumKeypress_resolves_first_match (lowerCase : Char → Char) (windowTitle : String) :
    (∀ (pre : List Window) (w : Window) (post : List Window),
      (∀ u ∈ pre, ¬ (toLower lowerCase windowTitle).data <:+: (toLower lowerCase u.title).data) →
      (toLower lowerCase windowTitle).data <:+: (toLower lowerCase w.title).data →
      (enumKeypress lowerCase windowTitle (pre ++ w :: post) (0, [])).1 = w.handle) ∧
    (∀ ws : List Window, (∀ w ∈ ws, w.handle ≠ 0) →
      ((enumKeypress lowerCase windowTitle ws (0, [])).1 = 0 ↔
        ∀ w ∈ ws, ¬ (toLower lowerCase windowTitle).data <:+: (toLower lowerCase w.title).data)) ∧
    (enumKeypress lowerCase "notepad" notepadWindows (0, [])).1 = 101 ∧
    notepadWindows.map (fun w => (w.handle, w.title)) =
      [(101, "Notepad"), (102, "notepad++ editor")] := by
  refine ⟨?_, ?_, rfl, rfl⟩
  · intro pre w post hpre hw
    rw [enumKeypress_first_match lowerCase windowTitle pre w post 0 []
      (fun u hu => (not_infix_iff lowerCase windowTitle u).mp (hpre u hu))
      ((matchesTitle_iff lowerCase windowTitle w).mpr hw)]
  · intro ws hhandles
    rcases first_match_split lowerCase windowTitle ws with hno | ⟨pre, w, post, hsplit, hpre, hw⟩
    · rw [enumKeypress_no_match lowerCase windowTitle ws 0 [] hno]
      simp only [true_iff]
      exact fun w hw => (not_infix_iff lowerCase windowTitle w).mpr (hno w hw)
    · rw [hsplit, enumKeypress_first_match lowerCase windowTitle pre w post 0 [] hpre hw]
      have hmem : w ∈ ws := by rw [hsplit]; simp
      constructor
      · intro h0
        exact absurd h0 (hhandles w hmem)
      · intro hall
        rw [← hsplit] at hall
        exact absurd ((matchesTitle_iff lowerCase windowTitle w).mp hw) (hall w hmem)

/-- C5 (instance): an untitled window and "Calculator" come first and do not match; the
pattern "NOTE" resolves "My Notes", the earlier of the two matching windows. -/
theorem enumKeypress_resolves_first_match_witness :
    (enumKeypress sampleCaseTable "NOTE"
      ([⟨7, "", true, false⟩, ⟨8, "Calculator", true, false⟩]
        ++ ⟨9, "My Notes", false, false⟩ :: [⟨10, "Notepad", true, false⟩]) (0, [])).1 = 9 :=
  (enumKeypress_resolves_first_match sampleCaseTable "NOTE").1
    [⟨7, "", true, false⟩, ⟨8, "Calculator", true, false⟩] ⟨9, "My Notes", false, false⟩
    [⟨10, "Notepad", true, false⟩] (by decide) (by decide)

/-- C8: when no enumerated title matches the pattern, `handleKeypress` answers with status
"error", the message "Window not found: '<pattern>'. Use 'list_windows' action to see
available windows.", and a data object holding the pattern and the non-empty titles of the
whole enumeration in order; it issues no call at all (no restore, set-foreground, key event). -/
theorem handleKeypress_window_not_found (lowerCase : Char → Char) (windowTitle : String)
    (keys : List String) (s : Sys)
    (hno : ∀ w ∈ s.windows,
      ¬ (toLower lowerCase windowTitle).data <:+: (toLower lowerCase w.title).data) :
    (handleKeypress lowerCase windowTitle keys s).1.status = "error" ∧
    (handleKeypress lowerCase windowTitle keys s).1.message =
      some ("Window not found: '" ++ windowTitle
        ++ "'. Use 'list_windows' action to see available windows.") ∧
    (handleKeypress lowerCase windowTitle keys s).1.data =
      some { searched_for := windowTitle,
             available_windows :=
               (s.windows.map (fun w => w.title)).filter (fun t => decide (t ≠ "")) } ∧
    (handleKeypress lowerCase windowTitle keys s).1.windows = none ∧
    (handleKeypress lowerCase windowTitle keys s).2.trace = s.trace := by
  have hno2 : ∀ w ∈ s.windows, matchesTitle lowerCase windowTitle w = false :=
    fun w hw => (not_infix_iff lowerCase windowTitle w).mp (hno w hw)
  have henum := enumKeypress_no_match lowerCase windowTitle s.windows 0 [] hno2
  rw [handleKeypress_not_found lowerCase windowTitle keys s (by rw [henum]), henum,
    listAllTitles_eq]
  simp [toJSON]

/-- C8 (instance): the pattern "ZZZ-not-present" against an untitled window, "Notepad" and
"Calculator". -/
theorem handleKeypress_window_not_found_witness :
    (handleKeypress sampleCaseTable "ZZZ-not-present" ["a"]
      (Sys.init [⟨7, "", true, false⟩, ⟨101, "Notepad", true, false⟩,
        ⟨8, "Calculator", false, false⟩] (fun _ => 101))).1.data =
      some { searched_for := "ZZZ-not-present",
             available_windows := ["Notepad", "Calculator"] } :=
  (handleKeypress_window_not_found sampleCaseTable "ZZZ-not-present" ["a"]
    (Sys.init [⟨7, "", true, false⟩, ⟨101, "Notepad", true, false⟩,
      ⟨8, "Calculator", false, false⟩] (fun _ => 101)) (by decide)).2.2.1

/-- C9: for every window-system snapshot the titles of list-visible form a sub-list, in the
same relative order, of the titles of list-all; neither holds an empty title; list-all is
exactly the non-empty titles and list-visible the non-empty titles of the visible windows. -/
theorem listVisible_sublist_listAll (s : Sys) :
    (handleListVisibleWindows s).1.windows = some (listVisibleTitles s.windows) ∧
    (handleListAllWindows s).1.windows = some (listAllTitles s.windows) ∧
    (listVisibleTitles s.windows).Sublist (listAllTitles s.windows) ∧
    "" ∉ listVisibleTitles s.windows ∧
    "" ∉ listAllTitles s.windows ∧
    listAllTitles s.windows =
      (s.windows.map (fun w => w.title)).filter (fun t => decide (t ≠ "")) ∧
    listVisibleTitles s.windows =
      ((s.windows.filter (fun w => w.visible)).map (fun w => w.title)).filter
        (fun t => decide (t ≠ "")) := by
  refine ⟨rfl, rfl, listVisibleTitles_sublist s.windows, ?_, ?_, listAllTitles_eq s.windows,
    listVisibleTitles_eq s.windows⟩
  · rw [listVisibleTitles_eq]
    simp
  · rw [listAllTitles_eq]
    simp

/-- C10: for a request that passes the validation of the router (non-empty window title and
keys), an untitled window never matches, so the resolution is the same as on the enumeration
with the untitled windows removed, and a resolved handle is that of the first matching window,
whose title is not empty even when untitled windows precede it. -/
theorem routeKeypress_never_resolves_untitled (lowerCase : Char → Char) (req : KeypressRequest)
    (s : Sys) (htitle : req.windowTitle ≠ "") (hkeys : req.keys ≠ []) :
    routeKeypress lowerCase req s = handleKeypress lowerCase req.windowTitle req.keys s ∧
    (∀ w : Window, w.title = "" → matchesTitle lowerCase req.windowTitle w = false) ∧
    enumKeypress lowerCase req.windowTitle s.windows (0, []) =
      enumKeypress lowerCase req.windowTitle
        (s.windows.filter (fun w => decide (w.title ≠ ""))) (0, []) ∧
    ((enumKeypress lowerCase req.windowTitle s.windows (0, [])).1 ≠ 0 →
      ∃ pre w post, s.windows = pre ++ w :: post ∧
        (∀ u ∈ pre, matchesTitle lowerCase req.windowTitle u = false) ∧
        matchesTitle lowerCase req.windowTitle w = true ∧
        (enumKeypress lowerCase req.windowTitle s.windows (0, [])).1 = w.handle ∧
        w.title ≠ "") := by
  have hunt : ∀ w : Window, w.title = "" → matchesTitle lowerCase req.windowTitle w = false :=
    fun w hw => matchesTitle_untitled lowerCase req.windowTitle w htitle hw
  refine ⟨?_, hunt, ?_, ?_⟩
  · have hlen : req.keys.length ≠ 0 := by
      intro h
      exact hkeys (List.length_eq_zero.mp h)
    simp [routeKeypress, htitle, hlen]
  · generalize (0 : Nat) = hwnd
    generalize ([] : List String) = allWindows
    induction s.windows generalizing hwnd allWindows with
    | nil => rfl
    | cons w ws ih =>
      by_cases hw : w.title = ""
      · have hm : contains (toLower lowerCase w.title) (toLower lowerCase req.windowTitle)
            = false := hunt w hw
        have hfilter : (w :: ws).filter (fun w => decide (w.title ≠ "")) =
            ws.filter (fun w => decide (w.title ≠ "")) := by simp [hw]
        rw [hfilter, ← ih]
        conv => lhs; unfold enumKeypress
        simp only [hm, Bool.false_eq_true, if_false]
        simp [hw]
      · have hfilter : (w :: ws).filter (fun w => decide (w.title ≠ "")) =
            w :: ws.filter (fun w => decide (w.title ≠ "")) := by simp [hw]
        rw [hfilter]
        conv => lhs; unfold enumKeypress
        conv => rhs; unfold enumKeypress
        simp only [ih]
  · intro hne
    rcases first_match_split lowerCase req.windowTitle s.windows with
      hno | ⟨pre, w, post, hsplit, hpre, hw⟩
    · rw [enumKeypress_no_match lowerCase req.windowTitle s.windows 0 [] hno] at hne
      exact absurd rfl hne
    · refine ⟨pre, w, post, hsplit, hpre, hw, ?_, ?_⟩
      · rw [hsplit, enumKeypress_first_match lowerCase req.windowTitle pre w post 0 [] hpre hw]
      · intro hempty
        rw [hunt w hempty] at hw
        exact Bool.false_ne_true hw

/-- C10 (instance): two untitled windows precede "Notepad"; the pattern "pad" resolves the
handle of "Notepad", not of an untitled window. -/
theorem routeKeypress_never_resolves_untitled_witness :
    enumKeypress sampleCaseTable "pad"
        [⟨7, "", true, false⟩, ⟨8, "", false, false⟩, ⟨101, "Notepad", true, false⟩] (0, []) =
      enumKeypress sampleCaseTable "pad"
        ([⟨7, "", true, false⟩, ⟨8, "", false, false⟩, ⟨101, "Notepad", true, false⟩].filter
          (fun w => decide (w.title ≠ ""))) (0, []) :=
  (routeKeypress_never_resolves_untitled sampleCaseTable
    { action := "keypress", windowTitle := "pad", keys := ["a"] }
    (Sys.init [⟨7, "", true, false⟩, ⟨8, "", false, false⟩, ⟨101, "Notepad", true, false⟩]
      (fun _ => 101)) (by decide) (by decide)).2.2.1

/-! ## Key names -/

/-- Two key names that the key loop cannot tell apart: same switch outcome, same modifier
classification. -/
theorem keyLoop_congr (lowerCase : Char → Char) (windowTitle : String)
    {keys keys2 : List String}
    (h : List.Forall₂ (fun a b =>
      vkCodeOf (toLower lowerCase a) = vkCodeOf (toLower lowerCase b) ∧
      isModifierKey (toLower lowerCase a) = isModifierKey (toLower lowerCase b)) keys keys2) :
    ∀ (pressed pressed2 : List String) (held : List Nat) (s : Sys),
      (keyLoop lowerCase windowTitle keys pressed held s).2 =
        (keyLoop lowerCase windowTitle keys2 pressed2 held s).2 ∧
      (keyLoop lowerCase windowTitle keys pressed held s).1.status =
        (keyLoop lowerCase windowTitle keys2 pressed2 held s).1.status := by
  induction h with
  | nil => intro pressed pressed2 held s; simp [keyLoop_nil]
  | @cons a b l1 l2 hab _ ih =>
    intro pressed pressed2 held s
    obtain ⟨hvk, hmod⟩ := hab
    unfold keyLoop
    rw [hvk, hmod]
    cases vkCodeOf (toLower lowerCase b) with
    | none => simp [toJSON]
    | some vk =>
      cases isModifierKey (toLower lowerCase b) with
      | true => simpa using ih (pressed ++ [a]) (pressed2 ++ [b]) (held ++ [vk]) _
      | false => simpa using ih (pressed ++ [a]) (pressed2 ++ [b]) held _

theorem handleKeypress_congr (lowerCase : Char → Char) (windowTitle : String)
    {keys keys2 : List String} (s : Sys)
    (h : List.Forall₂ (fun a b =>
      vkCodeOf (toLower lowerCase a) = vkCodeOf (toLower lowerCase b) ∧
      isModifierKey (toLower lowerCase a) = isModifierKey (toLower lowerCase b)) keys keys2) :
    (handleKeypress lowerCase windowTitle keys s).2 =
      (handleKeypress lowerCase windowTitle keys2 s).2 ∧
    (handleKeypress lowerCase windowTitle keys s).1.status =
      (handleKeypress lowerCase windowTitle keys2 s).1.status := by
  unfold handleKeypress
  cases enumKeypress lowerCase windowTitle s.windows (0, []) with
  | mk hwnd allWindows =>
    by_cases h0 : hwnd = 0
    · simp [h0]
    · cases hf : focusWindow hwnd s with
      | mk ok s3 =>
        cases ok with
        | false => simp [h0, hf]
        | true => simpa [h0, hf] using keyLoop_congr lowerCase windowTitle h [] [] [] s3

theorem shiftedPairs_table :
    ∀ p ∈ shiftedPairs,
      (∀ r ∈ p.1.data, r.toNat ≤ 0x7F) ∧ (∀ r ∈ p.2.data, r.toNat ≤ 0x7F) ∧
      vkCodeOf (toLower sampleCaseTable p.1) = vkCodeOf (toLower sampleCaseTable p.2) ∧
      (vkCodeOf (toLower sampleCaseTable p.1)).isSome = true ∧
      vkCodeOf (toLower sampleCaseTable p.1) ≠ some 0x10 ∧
      isModifierKey (toLower sampleCaseTable p.1) = false ∧
      isModifierKey (toLower sampleCaseTable p.2) = false := by
  decide

theorem getAllowedKeys_table :
    ∀ p ∈ getAllowedKeys, ∀ name ∈ p.2,
      (∀ r ∈ name.data, r.toNat ≤ 0x7F) ∧
      (vkCodeOf (toLower sampleCaseTable name)).isSome = true := by
  decide

/-- C4: a shifted symbol and its unshifted base key resolve to the same key code, which is
not Shift (0x10); on a resolved and focused window the one-key sequence of the symbol issues
key-down and key-up of that code only; and for every state of the window system the
sequences of the symbol and of the base key issue the same trace. -/
theorem shifted_symbol_same_trace (lowerCase : Char → Char) (symbol base : String)
    (hp : (symbol, base) ∈ shiftedPairs) :
    vkCodeOf (toLower lowerCase symbol) = vkCodeOf (toLower lowerCase base) ∧
    (∃ vk, vkCodeOf (toLower lowerCase symbol) = some vk ∧ vk ≠ 0x10 ∧
      ∀ (windowTitle : String) (s : Sys) (hwnd : Nat),
        (enumKeypress lowerCase windowTitle s.windows (0, [])).1 = hwnd → hwnd ≠ 0 →
        (focusWindow hwnd s).1 = true →
        (handleKeypress lowerCase windowTitle [symbol] s).2.trace =
          (focusWindow hwnd s).2.trace
            ++ [.keybd_event vk 0, .sleep 50, .keybd_event vk KEYEVENTF_KEYUP, .sleep 50]) ∧
    (∀ (windowTitle : String) (s : Sys),
      (handleKeypress lowerCase windowTitle [symbol] s).2.trace =
        (handleKeypress lowerCase windowTitle [base] s).2.trace) := by
  obtain ⟨ha1, ha2, hvk, hsome, hshift, hm1, hm2⟩ := shiftedPairs_table (symbol, base) hp
  simp only at ha1 ha2 hvk hsome hshift hm1 hm2
  rw [← toLower_ascii lowerCase sampleCaseTable symbol ha1] at hvk hsome hshift hm1
  rw [← toLower_ascii lowerCase sampleCaseTable base ha2] at hvk hm2
  obtain ⟨vk, hcode⟩ := Option.isSome_iff_exists.mp hsome
  refine ⟨hvk, ⟨vk, hcode, ?_, ?_⟩, ?_⟩
  · intro h
    apply hshift
    rw [hcode, h]
  · intro windowTitle s hwnd hres hne hfocus
    rw [handleKeypress_focused lowerCase windowTitle [symbol] s hwnd hres hne hfocus]
    have hall : ∀ k ∈ [symbol], resolves lowerCase k = true := by
      intro k hk
      rw [List.mem_singleton.mp hk]
      exact hsome
    rw [(keyLoop_resolved lowerCase windowTitle [symbol] [] [] (focusWindow hwnd s).2 hall).2]
    simp [pressEvents, heldCodes, hcode, hm1, pressCalls, releaseEvents]
  · intro windowTitle s
    have h := (handleKeypress_congr lowerCase windowTitle s
      (List.Forall₂.cons ⟨hvk, hm1.trans hm2.symm⟩ List.Forall₂.nil)).1
    rw [h]

/-- C4 (instance): "?" and "/" on the focused window "Notepad". -/
theorem shifted_symbol_same_trace_witness :
    (handleKeypress sampleCaseTable "notepad" ["?"]
        (Sys.init notepadWindows (fun _ => 101))).2.trace =
      (handleKeypress sampleCaseTable "notepad" ["/"]
        (Sys.init notepadWindows (fun _ => 101))).2.trace :=
  (shifted_symbol_same_trace sampleCaseTable "?" "/" (by decide)).2.2 "notepad"
    (Sys.init notepadWindows (fun _ => 101))

/-- C6: every name listed in a category of `getAllowedKeys` has a key code in the switch of
`handleKeypress`, so a sequence of listed names on a resolved and focused window is answered
with success; and a sequence holding a name whose lowercase form has no case is answered with
the "Unknown key" error for such a name, never with success. -/
theorem allowed_keys_resolve_unknown_rejected (lowerCase : Char → Char) :
    (∀ (category : String) (names : List String), (category, names) ∈ getAllowedKeys →
      ∀ name ∈ names, ∃ vk, vkCodeOf (toLower lowerCase name) = some vk) ∧
    (∀ (windowTitle : String) (keys : List String) (s : Sys) (hwnd : Nat),
      (enumKeypress lowerCase windowTitle s.windows (0, [])).1 = hwnd → hwnd ≠ 0 →
      (focusWindow hwnd s).1 = true →
      ((∀ k ∈ keys, ∃ category names, (category, names) ∈ getAllowedKeys ∧ k ∈ names) →
        (handleKeypress lowerCase windowTitle keys s).1.status = "success") ∧
      ((∃ k ∈ keys, vkCodeOf (toLower lowerCase k) = none) →
        ∃ k ∈ keys, vkCodeOf (toLower lowerCase k) = none ∧
          (handleKeypress lowerCase windowTitle keys s).1 =
            toJSON "error" ("Unknown key: " ++ k) none)) := by
  have hlisted : ∀ (category : String) (names : List String),
      (category, names) ∈ getAllowedKeys → ∀ name ∈ names, resolves lowerCase name = true := by
    intro category names hmem name hname
    obtain ⟨hascii, hsome⟩ := getAllowedKeys_table (category, names) hmem name hname
    unfold resolves
    rw [toLower_ascii lowerCase sampleCaseTable name hascii]
    exact hsome
  refine ⟨fun category names hmem name hname =>
    Option.isSome_iff_exists.mp (hlisted category names hmem name hname), ?_⟩
  intro windowTitle keys s hwnd hres hne hfocus
  rw [handleKeypress_focused lowerCase windowTitle keys s hwnd hres hne hfocus]
  constructor
  · intro hall
    have hres2 : ∀ k ∈ keys, resolves lowerCase k = true := by
      intro k hk
      obtain ⟨category, names, hmem, hname⟩ := hall k hk
      exact hlisted category names hmem k hname
    rw [(keyLoop_resolved lowerCase windowTitle keys [] [] (focusWindow hwnd s).2 hres2).1]
  · rintro ⟨k, hk, hnone⟩
    have hunres : ∃ k ∈ keys, resolves lowerCase k = false :=
      ⟨k, hk, by simp [resolves, hnone]⟩
    clear hk hnone k
    generalize (focusWindow hwnd s).2 = s3
    generalize ([] : List String) = pressed
    generalize ([] : List Nat) = held
    induction keys generalizing pressed held s3 with
    | nil => obtain ⟨k, hk, _⟩ := hunres; simp at hk
    | cons key rest ih =>
      cases hkey : vkCodeOf (toLower lowerCase key) with
      | none =>
        exact ⟨key, List.mem_cons_self _ _, hkey, by simp [keyLoop, hkey]⟩
      | some vk =>
        have hrest : ∃ k ∈ rest, resolves lowerCase k = false := by
          obtain ⟨k, hk, hbad⟩ := hunres
          rcases List.mem_cons.mp hk with rfl | hk
          · simp [resolves, hkey] at hbad
          · exact ⟨k, hk, hbad⟩
        unfold keyLoop
        simp only [hkey]
        cases isModifierKey (toLower lowerCase key) with
        | true =>
          obtain ⟨k, hk, hnone, hresp⟩ := ih hrest (sleep 50 (keybd_event vk 0 s3))
            (pressed ++ [key]) (held ++ [vk])
          exact ⟨k, List.mem_cons_of_mem _ hk, hnone, by simpa using hresp⟩
        | false =>
          obtain ⟨k, hk, hnone, hresp⟩ := ih hrest
            (sleep 50 (keybd_event vk KEYEVENTF_KEYUP (sleep 50 (keybd_event vk 0 s3))))
            (pressed ++ [key]) held
          exact ⟨k, List.mem_cons_of_mem _ hk, hnone, by simpa using hresp⟩

/-- C6 (instance): the listed name "right" has a key code; the sequence "f5", "printscrn"
on the focused window "Notepad" is answered with the error for "printscrn". -/
theorem allowed_keys_resolve_unknown_rejected_witness :
    (∃ vk, vkCodeOf (toLower sampleCaseTable "right") = some vk) ∧
    ∃ k ∈ ["f5", "printscrn"], vkCodeOf (toLower sampleCaseTable k) = none ∧
      (handleKeypress sampleCaseTable "notepad" ["f5", "printscrn"]
        (Sys.init notepadWindows (fun _ => 101))).1 = toJSON "error" ("Unknown key: " ++ k) none :=
  ⟨(allowed_keys_resolve_unknown_rejected sampleCaseTable).1 "arrows"
      ["left", "up", "right", "down"] (by decide) "right" (by decide),
   ((allowed_keys_resolve_unknown_rejected sampleCaseTable).2 "notepad" ["f5", "printscrn"]
      (Sys.init notepadWindows (fun _ => 101)) 101 (by decide) (by decide) (by decide)).2
      ⟨"printscrn", by decide, by decide⟩⟩

theorem toNat_ofNat_small (n : Nat) (h : n < 0xD800) : (Char.ofNat n).toNat = n := by
  have hv : n.isValidChar := Or.inl h
  simp [Char.ofNat, hv, Char.ofNatAux, Char.toNat, UInt32.toNat]

theorem unicodeToLower_upper (lowerCase : Char → Char) (r : Char)
    (h1 : 65 ≤ r.toNat) (h2 : r.toNat ≤ 90) :
    unicodeToLower lowerCase r = Char.ofNat (r.toNat + 32) := by
  show (if r.toNat ≤ 127 then
      (if 65 ≤ r.toNat ∧ r.toNat ≤ 90 then Char.ofNat (r.toNat + 32) else r)
    else lowerCase r) = _
  rw [if_pos (by omega), if_pos ⟨h1, h2⟩]

theorem unicodeToLower_ascii_other (lowerCase : Char → Char) (r : Char)
    (h1 : r.toNat ≤ 127) (h2 : ¬ (65 ≤ r.toNat ∧ r.toNat ≤ 90)) :
    unicodeToLower lowerCase r = r := by
  show (if r.toNat ≤ 127 then
      (if 65 ≤ r.toNat ∧ r.toNat ≤ 90 then Char.ofNat (r.toNat + 32) else r)
    else lowerCase r) = _
  rw [if_pos h1, if_neg h2]

theorem unicodeToLower_non_ascii (lowerCase : Char → Char) (r : Char) (h : ¬ r.toNat ≤ 127) :
    unicodeToLower lowerCase r = lowerCase r := by
  show (if r.toNat ≤ 127 then
      (if 65 ≤ r.toNat ∧ r.toNat ≤ 90 then Char.ofNat (r.toNat + 32) else r)
    else lowerCase r) = _
  rw [if_neg h]

theorem sampleCaseTable_latin (r : Char)
    (h : 0xC0 ≤ r.toNat ∧ r.toNat ≤ 0xDE ∧ r.toNat ≠ 0xD7) :
    sampleCaseTable r = Char.ofNat (r.toNat + 32) := by
  unfold sampleCaseTable
  rw [if_neg (by omega), if_neg (by omega), if_pos h]

theorem sampleCaseTable_other (r : Char) (hk : r.toNat ≠ 0x212A) (hi : r.toNat ≠ 0x130)
    (h : ¬ (0xC0 ≤ r.toNat ∧ r.toNat ≤ 0xDE ∧ r.toNat ≠ 0xD7)) :
    sampleCaseTable r = r := by
  unfold sampleCaseTable
  rw [if_neg hk, if_neg hi, if_neg h]

/-- Lowercasing a rune twice under the sample table is lowercasing it once. -/
theorem sampleCaseTable_idem (r : Char) :
    unicodeToLower sampleCaseTable (unicodeToLower sampleCaseTable r) =
      unicodeToLower sampleCaseTable r := by
  by_cases hascii : r.toNat ≤ 127
  · by_cases hup : 65 ≤ r.toNat ∧ r.toNat ≤ 90
    · have h2 : (Char.ofNat (r.toNat + 32)).toNat = r.toNat + 32 :=
        toNat_ofNat_small _ (by omega)
      rw [unicodeToLower_upper _ r hup.1 hup.2]
      exact unicodeToLower_ascii_other _ _ (by omega) (by omega)
    · rw [unicodeToLower_ascii_other _ r hascii hup, unicodeToLower_ascii_other _ r hascii hup]
  · rw [unicodeToLower_non_ascii _ r hascii]
    by_cases hk : r.toNat = 0x212A
    · have h1 : sampleCaseTable r = 'k' := by
        unfold sampleCaseTable
        rw [if_pos hk]
      rw [h1]
      rfl
    · by_cases hi : r.toNat = 0x130
      · have h1 : sampleCaseTable r = 'i' := by
          unfold sampleCaseTable
          rw [if_neg hk, if_pos hi]
        rw [h1]
        rfl
      · by_cases hl : 0xC0 ≤ r.toNat ∧ r.toNat ≤ 0xDE ∧ r.toNat ≠ 0xD7
        · have h2 : (Char.ofNat (r.toNat + 32)).toNat = r.toNat + 32 :=
            toNat_ofNat_small _ (by omega)
          rw [sampleCaseTable_latin r hl,
            unicodeToLower_non_ascii _ _ (by omega),
            sampleCaseTable_other _ (by omega) (by omega) (by omega)]
        · rw [sampleCaseTable_other r hk hi hl, unicodeToLower_non_ascii _ r hascii,
            sampleCaseTable_other r hk hi hl]

/-- C7: key names are case-insensitive. For a lowercasing that is idempotent on runes, every
key sequence issues the same calls and gets a response of the same status as the sequence with
every name lowercased, because the switch and the modifier test see the same name; "SHIFT" is
held as a modifier with the code of "shift" and issues the same trace. -/
theorem key_names_case_insensitive (lowerCase : Char → Char)
    (hidem : ∀ r, unicodeToLower lowerCase (unicodeToLower lowerCase r) =
      unicodeToLower lowerCase r) :
    (∀ (windowTitle : String) (keys : List String) (s : Sys),
      (handleKeypress lowerCase windowTitle keys s).2.trace =
        (handleKeypress lowerCase windowTitle (keys.map (toLower lowerCase)) s).2.trace ∧
      (handleKeypress lowerCase windowTitle keys s).1.status =
        (handleKeypress lowerCase windowTitle (keys.map (toLower lowerCase)) s).1.status) ∧
    (∀ key : String,
      vkCodeOf (toLower lowerCase (toLower lowerCase key)) = vkCodeOf (toLower lowerCase key) ∧
      isModifierKey (toLower lowerCase (toLower lowerCase key)) =
        isModifierKey (toLower lowerCase key)) ∧
    isModifierKey (toLower lowerCase "SHIFT") = true ∧
    vkCodeOf (toLower lowerCase "SHIFT") = vkCodeOf (toLower lowerCase "shift") ∧
    (∀ (windowTitle : String) (s : Sys),
      (handleKeypress lowerCase windowTitle ["SHIFT"] s).2.trace =
        (handleKeypress lowerCase windowTitle ["shift"] s).2.trace) := by
  have hkey : ∀ key : String,
      vkCodeOf (toLower lowerCase (toLower lowerCase key)) = vkCodeOf (toLower lowerCase key) ∧
      isModifierKey (toLower lowerCase (toLower lowerCase key)) =
        isModifierKey (toLower lowerCase key) := by
    intro key
    rw [toLower_idem lowerCase hidem key]
    exact ⟨rfl, rfl⟩
  refine ⟨?_, hkey, rfl, rfl, ?_⟩
  · intro windowTitle keys s
    have hrel : List.Forall₂ (fun a b =>
        vkCodeOf (toLower lowerCase a) = vkCodeOf (toLower lowerCase b) ∧
        isModifierKey (toLower lowerCase a) = isModifierKey (toLower lowerCase b))
        keys (keys.map (toLower lowerCase)) := by
      rw [List.forall₂_map_right_iff, List.forall₂_same]
      intro key _
      exact ⟨(hkey key).1.symm, (hkey key).2.symm⟩
    have h := handleKeypress_congr lowerCase windowTitle s hrel
    exact ⟨by rw [h.1], h.2⟩
  · intro windowTitle s
    have h := (handleKeypress_congr lowerCase windowTitle s
      (List.Forall₂.cons (a := "SHIFT") (b := "shift") ⟨rfl, rfl⟩ List.Forall₂.nil)).1
    rw [h]

/-- C7 (instance): "Ctrl", the Kelvin sign and "ESCAPE" against "ctrl", "k" and "escape" on
the focused window "Notepad". -/
theorem key_names_case_insensitive_witness :
    (handleKeypress sampleCaseTable "notepad" ["Ctrl", "K", "ESCAPE"]
        (Sys.init notepadWindows (fun _ => 101))).2.trace =
      (handleKeypress sampleCaseTable "notepad"
        (["Ctrl", "K", "ESCAPE"].map (toLower sampleCaseTable))
        (Sys.init notepadWindows (fun _ => 101))).2.trace ∧
    ["Ctrl", "K", "ESCAPE"].map (toLower sampleCaseTable) = ["ctrl", "k", "escape"] :=
  ⟨((key_names_case_insensitive sampleCaseTable sampleCaseTable_idem).1 "notepad"
      ["Ctrl", "K", "ESCAPE"] (Sys.init notepadWindows (fun _ => 101))).1, by decide⟩

end TCPKeyboard

namespace TCPFileReader

/-! ## writeCRLF -/

theorem replaceAllLF_append (s t : Bytes) :
    replaceAllLF (s ++ t) = replaceAllLF s ++ replaceAllLF t := by
  induction s with
  | nil => rfl
  | cons b rest ih =>
    by_cases hb : b = LF <;> simp [replaceAllLF, hb, ih]

/-- In the output of the replacement every line feed comes right after a carriage return. -/
theorem replaceAllLF_no_bare :
    ∀ (s pre post : Bytes), replaceAllLF s = pre ++ LF :: post → ∃ init, pre = init ++ [CR] := by
  intro s
  induction s with
  | nil => intro pre post h; simp [replaceAllLF] at h
  | cons b rest ih =>
    intro pre post h
    by_cases hb : b = LF
    · simp only [replaceAllLF, hb, if_true] at h
      cases pre with
      | nil => simp [CR, LF] at h
      | cons p pre2 =>
        simp only [List.cons_append, List.cons.injEq] at h
        obtain ⟨hp, h2⟩ := h
        cases pre2 with
        | nil => exact ⟨[], by simp [hp]⟩
        | cons q pre3 =>
          simp only [List.cons_append, List.cons.injEq] at h2
          obtain ⟨init, hinit⟩ := ih pre3 post h2.2
          exact ⟨p :: q :: init, by simp [hinit]⟩
    · simp only [replaceAllLF, hb, if_false] at h
      cases pre with
      | nil =>
        simp only [List.nil_append, List.cons.injEq] at h
        exact absurd h.1 hb
      | cons p pre2 =>
        simp only [List.cons_append, List.cons.injEq] at h
        obtain ⟨init, hinit⟩ := ih pre2 post h.2
        exact ⟨p :: init, by simp [hinit]⟩

theorem hasSuffixLF_iff (s : Bytes) : hasSuffixLF s = true ↔ ∃ init, s = init ++ [LF] := by
  unfold hasSuffixLF
  constructor
  · intro h
    have h2 : s.getLast? = some LF := by simpa using h
    rcases List.eq_nil_or_concat s with hnil | ⟨init, b, hs⟩
    · subst hnil; simp at h2
    · subst hs
      simp at h2
      exact ⟨init, by simp [h2]⟩
  · rintro ⟨init, rfl⟩
    simp

/-- C15: for every string the bytes `writeCRLF` writes end with CRLF and hold no bare LF
(every line feed comes right after a carriage return); they are CRLF for the empty string
and otherwise the string, with a line feed appended when it did not end with one, with
every line feed replaced by CRLF. -/
theorem writeCRLF_ends_with_crlf_no_bare_lf (s : Bytes) :
    [CR, LF] <:+ writeCRLF s ∧
    (∀ pre post : Bytes, writeCRLF s = pre ++ LF :: post → ∃ init, pre = init ++ [CR]) ∧
    writeCRLF [] = [CR, LF] ∧
    (s ≠ [] → hasSuffixLF s = true → writeCRLF s = replaceAllLF s) ∧
    (s ≠ [] → hasSuffixLF s = false → writeCRLF s = replaceAllLF (s ++ [LF])) ∧
    (∀ t : Bytes, LF ∉ t → replaceAllLF t = t) ∧
    (∀ t u : Bytes, replaceAllLF (t ++ LF :: u) = replaceAllLF t ++ CR :: LF :: replaceAllLF u) := by
  have hends : ∀ t : Bytes, [CR, LF] <:+ replaceAllLF (t ++ [LF]) := by
    intro t
    rw [replaceAllLF_append]
    exact ⟨replaceAllLF t, by simp [replaceAllLF]⟩
  refine ⟨?_, ?_, rfl, ?_, ?_, ?_, ?_⟩
  · by_cases hs : s = []
    · subst hs; exact ⟨[], rfl⟩
    · cases hsuf : hasSuffixLF s with
      | true =>
        obtain ⟨init, hinit⟩ := (hasSuffixLF_iff s).mp hsuf
        simp only [writeCRLF, hs, hsuf, if_false, Bool.not_true, Bool.false_eq_true]
        rw [hinit]
        exact hends init
      | false =>
        simp only [writeCRLF, hs, hsuf, if_false, Bool.not_false, if_true]
        exact hends s
  · intro pre post h
    by_cases hs : s = []
    · subst hs
      have h2 : [CR, LF] = pre ++ LF :: post := h
      cases pre with
      | nil => simp [CR, LF] at h2
      | cons p pre2 =>
        cases pre2 with
        | nil =>
          simp only [List.cons_append, List.nil_append, List.cons.injEq] at h2
          exact ⟨[], by simp [h2.1]⟩
        | cons q pre3 =>
          simp at h2
    · cases hsuf : hasSuffixLF s with
      | true =>
        simp only [writeCRLF, hs, hsuf, if_false, Bool.not_true, Bool.false_eq_true] at h
        exact replaceAllLF_no_bare s pre post h
      | false =>
        simp only [writeCRLF, hs, hsuf, if_false, Bool.not_false, if_true] at h
        exact replaceAllLF_no_bare (s ++ [LF]) pre post h
  · intro hs hsuf
    simp [writeCRLF, hs, hsuf]
  · intro hs hsuf
    simp [writeCRLF, hs, hsuf]
  · intro t ht
    induction t with
    | nil => rfl
    | cons b rest ih =>
      have hb : b ≠ LF := fun h => ht (by simp [h])
      have hrest : LF ∉ rest := fun h => ht (List.mem_cons_of_mem _ h)
      simp [replaceAllLF, hb, ih hrest]
  · intro t u
    rw [replaceAllLF_append]
    simp [replaceAllLF]

/-! ## tailFile -/

/-- The sliding buffer holds the last `k` lines of what it has seen. -/
theorem tailLoop_eq (n : Int) (k : Nat) (hn : n = (k : Int)) :
    ∀ (lines buf : List Bytes), buf.length ≤ k →
      tailLoop n lines buf = (buf ++ lines).drop ((buf ++ lines).length - k) := by
  intro lines
  induction lines with
  | nil =>
    intro buf hbuf
    have h0 : (buf ++ []).length - k = 0 := by simp; omega
    rw [h0]
    simp [tailLoop]
  | cons line rest ih =>
    intro buf hbuf
    unfold tailLoop
    by_cases hfull : ((buf ++ [line]).length : Int) > n
    · have hlen : buf.length = k := by
        rw [hn] at hfull
        simp at hfull
        omega
      have hdrop : ((buf ++ [line]).drop 1).length ≤ k := by simp; omega
      simp only [hfull, if_true]
      rw [ih ((buf ++ [line]).drop 1) hdrop]
      have hsplit : (buf ++ [line]).drop 1 ++ rest = (buf ++ line :: rest).drop 1 := by
        cases buf with
        | nil => simp
        | cons b bs => simp
      rw [hsplit, List.drop_drop]
      congr 1
      simp
      omega
    · have hlen : (buf ++ [line]).length ≤ k := by
        rw [hn] at hfull
        simp at hfull ⊢
        omega
      simp only [hfull, if_false]
      rw [ih (buf ++ [line]) hlen]
      simp

theorem tailLoop_length_le (n : Int) (k : Nat) (hn : n = (k : Int)) (lines : List Bytes) :
    (tailLoop n lines []).length ≤ k := by
  rw [tailLoop_eq n k hn lines [] (Nat.zero_le _)]
  simp
  omega

theorem scanFile_short (readErr : Option String) :
    ∀ lines : List Bytes, (∀ line ∈ lines, line.length < MaxScanTokenSize) →
      scanFile lines readErr = (lines.map dropCR, readErr) := by
  intro lines
  induction lines with
  | nil => intro _; rfl
  | cons line rest ih =>
    intro h
    have hline : ¬ MaxScanTokenSize ≤ line.length :=
      Nat.not_le.mpr (h line (List.mem_cons_self _ _))
    have hrest := ih (fun l hl => h l (List.mem_cons_of_mem _ hl))
    simp only [scanFile, hline, if_false, hrest, List.map_cons]

/-- A first line of 64 KiB or more makes the scanner give up: `tailFile` hands back its
error. -/
theorem tailFile_too_long (memory : Nat) (f : File) (n : Int) (line : Bytes)
    (rest : List Bytes) (hpos : 0 < n) (halloc : (stringSize : Int) * n ≤ maxAlloc)
    (hmem : (stringSize : Int) * n ≤ memory) (hlines : f.lines = line :: rest)
    (hlong : MaxScanTokenSize ≤ line.length) :
    tailFile memory (.ok f) n = .failure "bufio.Scanner: token too long" := by
  have hnot : ¬ n ≤ 0 := by omega
  have h1 : ¬ ((maxAlloc : Int) < stringSize * n) := by omega
  have h2 : ¬ ((memory : Int) < stringSize * n) := by omega
  simp only [tailFile, hnot, h1, h2, if_false, hlines, scanFile, hlong, if_true]

/-- C19 (counterexample): for the two-line file "a", "b" the call with n = 2^63 - 1 ends in
the panic of `make`, the call with n = 2^40 on a machine with 16 GiB dies out of memory, and
a file with one line of 65536 bytes is answered with the scanner's error; in none of the
three is the result the last lines of the file. -/
theorem tailFile_large_n_or_long_line_fails :
    tailFile (2 ^ 34)
        (.ok { readAll := .ok (ascii "a\nb\n"), lines := [ascii "a", ascii "b"],
               readErr := none }) (2 ^ 63 - 1) =
      .crash "makeslice: cap out of range" ∧
    tailFile (2 ^ 34)
        (.ok { readAll := .ok (ascii "a\nb\n"), lines := [ascii "a", ascii "b"],
               readErr := none }) (2 ^ 40) =
      .crash "out of memory" ∧
    tailFile (2 ^ 34)
        (.ok { readAll := .ok (List.replicate 65536 97), lines := [List.replicate 65536 97],
               readErr := none }) 1 =
      .failure "bufio.Scanner: token too long" := by
  have hlen : MaxScanTokenSize ≤ (List.replicate 65536 97 : Bytes).length := by
    rw [List.length_replicate]
    decide
  exact ⟨by decide, by decide,
    tailFile_too_long (2 ^ 34) _ 1 (List.replicate 65536 97) [] (by decide) (by decide)
      (by decide) rfl hlen⟩

/-- C19 (amended): for every n > 0 whose buffer of n string headers the runtime allocates
(within `maxAlloc` and the memory), and every file whose lines are shorter than 64 KiB and
are read without error, `tailFile` returns the last min(n, |L|) lines of L (the lines of the
file, each without its trailing carriage return) in file order, joined by a line feed and
followed by one line feed, and the sliding buffer holds at most n lines after every
iteration; for every n that is not positive it returns the whole content as read. -/
theorem tailFile_returns_last_lines (memory : Nat) (f : File) (n : Int) :
    (0 < n → (stringSize : Int) * n ≤ maxAlloc → (stringSize : Int) * n ≤ memory →
      (∀ line ∈ f.lines, line.length < MaxScanTokenSize) → f.readErr = none →
      tailFile memory (.ok f) n =
        .value (joinLF ((f.lines.map dropCR).drop
          (f.lines.length - min n.toNat f.lines.length)) ++ [LF]) ∧
      ((f.lines.map dropCR).drop (f.lines.length - min n.toNat f.lines.length)).length =
        min n.toNat f.lines.length) ∧
    (0 < n → ∀ seen : List Bytes, seen <+: f.lines.map dropCR →
      (tailLoop n seen []).length ≤ n.toNat) ∧
    (n ≤ 0 → ∀ content : Bytes, f.readAll = .ok content →
      tailFile memory (.ok f) n = .value content) := by
  refine ⟨?_, ?_, ?_⟩
  · intro hpos halloc hmem hshort hread
    have hn : n = ((n.toNat : Nat) : Int) := by omega
    have hnot : ¬ n ≤ 0 := by omega
    have h1 : ¬ ((maxAlloc : Int) < stringSize * n) := by omega
    have h2 : ¬ ((memory : Int) < stringSize * n) := by omega
    have hdrop : f.lines.length - min n.toNat f.lines.length = f.lines.length - n.toNat := by
      omega
    constructor
    · simp only [tailFile, hnot, h1, h2, if_false, hread, scanFile_short none f.lines hshort]
      rw [tailLoop_eq n n.toNat hn (f.lines.map dropCR) [] (Nat.zero_le _), hdrop]
      simp
    · simp
      omega
  · intro hpos seen _
    exact tailLoop_length_le n n.toNat (by omega) seen
  · intro hle content hread
    simp [tailFile, hle, hread]

/-- C19 (instance of the amended claim): the last two of the three lines "a", "b", "c", the
second ending with a carriage return. -/
theorem tailFile_returns_last_lines_witness :
    tailFile (2 ^ 34)
        (.ok { readAll := .ok (ascii "a\nb\r\nc\n"),
               lines := [ascii "a", ascii "b\r", ascii "c"], readErr := none }) 2 =
      .value (ascii "b\nc\n") :=
  ((tailFile_returns_last_lines (2 ^ 34)
    { readAll := .ok (ascii "a\nb\r\nc\n"), lines := [ascii "a", ascii "b\r", ascii "c"],
      readErr := none } 2).1 (by decide) (by decide) (by decide) (by decide) rfl).1

end TCPFileReader

namespace TCPKeyboard

/-! ## The router -/

theorem length_ne_zero_of_ne_empty (message : String) (h : message ≠ "") :
    ¬ message.length = 0 := by
  intro hlen
  apply h
  cases message with
  | mk d =>
    have hd : d = [] := List.length_eq_zero.mp hlen
    subst hd
    rfl

theorem parseMessage_keypress (json : Json) (lowerCase : Char → Char) (message : String)
    (s : Sys) (req : KeypressRequest) (hne : message ≠ "")
    (hact : json.unmarshalAction message = .ok "keypress")
    (hreq : json.unmarshalKeypress message = .ok req) :
    parseMessage json lowerCase message s = routeKeypress lowerCase req s := by
  have h1 : ¬ ("keypress" = "list_visible_windows") := by decide
  have h2 : ¬ ("keypress" = "list_all_windows") := by decide
  simp only [parseMessage, length_ne_zero_of_ne_empty message hne, hact, hreq, h1, h2, if_false,
    if_true]

/-- C12: a keypress command is validated before any effect. A decoded keypress request with
an empty window title is answered with "Missing window_title field", one with a window title
but no keys with "Missing or empty keys array"; in both cases the state of the window system
is handed back as it was (no call is issued, the answer does not depend on the windows), and
only a request that passes both tests reaches `handleKeypress`. -/
theorem parseMessage_validates_keypress (json : Json) (lowerCase : Char → Char)
    (message : String) (req : KeypressRequest) (hne : message ≠ "")
    (hact : json.unmarshalAction message = .ok "keypress")
    (hreq : json.unmarshalKeypress message = .ok req) :
    (req.windowTitle = "" → ∀ s : Sys,
      parseMessage json lowerCase message s =
        (toJSON "error" "Missing window_title field" none, s)) ∧
    (req.windowTitle ≠ "" → req.keys = [] → ∀ s : Sys,
      parseMessage json lowerCase message s =
        (toJSON "error" "Missing or empty keys array" none, s)) ∧
    (req.windowTitle ≠ "" → req.keys ≠ [] → ∀ s : Sys,
      parseMessage json lowerCase message s =
        handleKeypress lowerCase req.windowTitle req.keys s) := by
  refine ⟨?_, ?_, ?_⟩
  · intro htitle s
    rw [parseMessage_keypress json lowerCase message s req hne hact hreq]
    simp [routeKeypress, htitle]
  · intro htitle hkeys s
    rw [parseMessage_keypress json lowerCase message s req hne hact hreq]
    simp [routeKeypress, htitle, hkeys]
  · intro htitle hkeys s
    rw [parseMessage_keypress json lowerCase message s req hne hact hreq]
    have hlen : ¬ req.keys.length = 0 := fun h => hkeys (List.length_eq_zero.mp h)
    simp [routeKeypress, htitle, hlen]

/-- C12 (instance): a keypress line without a window title, with "Notepad" on screen. -/
theorem parseMessage_validates_keypress_witness :
    parseMessage sampleJson sampleCaseTable "\x7b\"action\":\"keypress\",\"keys\":[\"a\"]\x7d"
        (Sys.init notepadWindows (fun _ => 101)) =
      (toJSON "error" "Missing window_title field" none,
        Sys.init notepadWindows (fun _ => 101)) :=
  (parseMessage_validates_keypress sampleJson sampleCaseTable
    "\x7b\"action\":\"keypress\",\"keys\":[\"a\"]\x7d"
    { action := "keypress", windowTitle := "", keys := ["a"] } (by decide) rfl rfl).1 rfl
    (Sys.init notepadWindows (fun _ => 101))

/-- C13: a well-formed line whose action is none of list_visible_windows, list_all_windows,
keypress (a missing action is decoded as the empty string) is answered with status "error"
and the message "Unknown action: " followed by the action; no handler runs, the state of the
window system is handed back as it was. -/
theorem parseMessage_unknown_action (json : Json) (lowerCase : Char → Char) (message : String)
    (action : String) (s : Sys) (hne : message ≠ "")
    (hact : json.unmarshalAction message = .ok action)
    (h1 : action ≠ "list_visible_windows") (h2 : action ≠ "list_all_windows")
    (h3 : action ≠ "keypress") :
    parseMessage json lowerCase message s =
      (toJSON "error" ("Unknown action: " ++ action) none, s) ∧
    (parseMessage json lowerCase message s).1.status = "error" ∧
    (parseMessage json lowerCase message s).1.message = some ("Unknown action: " ++ action) := by
  have h : parseMessage json lowerCase message s =
      (toJSON "error" ("Unknown action: " ++ action) none, s) := by
    simp only [parseMessage, length_ne_zero_of_ne_empty message hne, hact, h1, h2, h3, if_false]
  rw [h]
  exact ⟨rfl, rfl, rfl⟩

/-- C13 (instance): the line without an action is answered with "Unknown action: ". -/
theorem parseMessage_unknown_action_witness :
    (parseMessage sampleJson sampleCaseTable "\x7b\x7d"
        (Sys.init notepadWindows (fun _ => 101))).1.message = some "Unknown action: " :=
  (parseMessage_unknown_action sampleJson sampleCaseTable "\x7b\x7d" ""
    (Sys.init notepadWindows (fun _ => 101)) (by decide) rfl (by decide) (by decide)
    (by decide)).2.2

/-! ## The connection loop -/

theorem handleConnection_cons_short (json : Json) (lowerCase : Char → Char)
    (writeFails : Nat → Bool) (line : String) (rest : List String) (s : Sys)
    (written : List String) (h : line.utf8ByteSize < MaxScanTokenSize) :
    handleConnection json lowerCase writeFails (line :: rest) s written =
      if dropCR line = "" then handleConnection json lowerCase writeFails rest s written
      else if writeFails written.length = true then
        (written, (parseMessage json lowerCase (dropCR line) s).2)
      else
        handleConnection json lowerCase writeFails rest
          (parseMessage json lowerCase (dropCR line) s).2
          (written ++ [json.marshal (parseMessage json lowerCase (dropCR line) s).1 ++ "\n"]) := by
  have hline : ¬ MaxScanTokenSize ≤ line.utf8ByteSize := Nat.not_le.mpr h
  simp only [handleConnection, hline, if_false]

theorem handleConnection_written (json : Json) (lowerCase : Char → Char)
    (writeFails : Nat → Bool) (hw : ∀ k, writeFails k = false) :
    ∀ (lines : List String) (s : Sys) (written : List String),
      (∀ line ∈ lines, line.utf8ByteSize < MaxScanTokenSize) →
      (handleConnection json lowerCase writeFails lines s written).1 =
        written ++ responses json lowerCase (lines.map dropCR) s ∧
      (handleConnection json lowerCase writeFails lines s written).2 =
        (handleConnection json lowerCase writeFails lines s []).2 := by
  intro lines
  induction lines with
  | nil => intro s written _; simp [handleConnection, responses]
  | cons line rest ih =>
    intro s written hshort
    have hline := hshort line (List.mem_cons_self _ _)
    have hrest : ∀ l ∈ rest, l.utf8ByteSize < MaxScanTokenSize :=
      fun l hl => hshort l (List.mem_cons_of_mem _ hl)
    rw [handleConnection_cons_short json lowerCase writeFails line rest s written hline,
      handleConnection_cons_short json lowerCase writeFails line rest s [] hline]
    by_cases hm : dropCR line = ""
    · simp only [List.map_cons, responses, hm, if_true]
      exact ih s written hrest
    · simp only [List.map_cons, responses, hm, if_false, hw, Bool.false_eq_true]
      refine ⟨?_, ?_⟩
      · rw [(ih _ _ hrest).1]
        simp
      · exact ((ih _ _ hrest).2).trans ((ih _ _ hrest).2).symm

theorem responses_append_lines (json : Json) (lowerCase : Char → Char)
    (writeFails : Nat → Bool) (hw : ∀ k, writeFails k = false) :
    ∀ (l1 l2 : List String) (s : Sys), (∀ line ∈ l1, line.utf8ByteSize < MaxScanTokenSize) →
      responses json lowerCase ((l1 ++ l2).map dropCR) s =
        responses json lowerCase (l1.map dropCR) s
          ++ responses json lowerCase (l2.map dropCR)
              (handleConnection json lowerCase writeFails l1 s []).2 := by
  intro l1
  induction l1 with
  | nil => intro l2 s _; simp [responses, handleConnection]
  | cons line rest ih =>
    intro l2 s hshort
    have hline := hshort line (List.mem_cons_self _ _)
    have hrest : ∀ l ∈ rest, l.utf8ByteSize < MaxScanTokenSize :=
      fun l hl => hshort l (List.mem_cons_of_mem _ hl)
    rw [handleConnection_cons_short json lowerCase writeFails line rest s [] hline]
    by_cases hm : dropCR line = ""
    · simp only [List.cons_append, List.map_cons, responses, hm, if_true]
      exact ih l2 s hrest
    · simp only [List.cons_append, List.map_cons, responses, hm, if_false, hw,
        Bool.false_eq_true]
      congr 1
      rw [(handleConnection_written json lowerCase writeFails hw rest
        (parseMessage json lowerCase (dropCR line) s).2
        ([] ++ [json.marshal (parseMessage json lowerCase (dropCR line) s).1 ++ "\n"]) hrest).2]
      exact ih l2 _ hrest

theorem responses_filter (json : Json) (lowerCase : Char → Char) :
    ∀ (lines : List String) (s : Sys),
      responses json lowerCase (lines.filter (fun m => decide (m ≠ ""))) s =
        responses json lowerCase lines s ∧
      (responses json lowerCase lines s).length =
        (lines.filter (fun m => decide (m ≠ ""))).length := by
  intro lines
  induction lines with
  | nil => intro s; simp [responses]
  | cons message rest ih =>
    intro s
    by_cases hm : message = ""
    · simp only [responses, hm, if_true]
      simpa using ih s
    · have hf : (message :: rest).filter (fun m => decide (m ≠ "")) =
          message :: rest.filter (fun m => decide (m ≠ "")) := by simp [hm]
      rw [hf]
      simp only [responses, hm, if_false, List.length_cons]
      exact ⟨by rw [(ih _).1], by rw [(ih _).2]⟩

/-- A line of 64 KiB or more ends the loop: it and the lines after it change nothing. -/
theorem handleConnection_too_long (json : Json) (lowerCase : Char → Char)
    (writeFails : Nat → Bool) (long : String) (rest : List String)
    (hlong : MaxScanTokenSize ≤ long.utf8ByteSize) :
    ∀ (lines : List String) (s : Sys) (written : List String),
      (∀ line ∈ lines, line.utf8ByteSize < MaxScanTokenSize) →
      handleConnection json lowerCase writeFails (lines ++ long :: rest) s written =
        handleConnection json lowerCase writeFails lines s written := by
  intro lines
  induction lines with
  | nil => intro s written _; simp [handleConnection, hlong]
  | cons line tail ih =>
    intro s written hshort
    have hline := hshort line (List.mem_cons_self _ _)
    have htail : ∀ l ∈ tail, l.utf8ByteSize < MaxScanTokenSize :=
      fun l hl => hshort l (List.mem_cons_of_mem _ hl)
    rw [List.cons_append,
      handleConnection_cons_short json lowerCase writeFails line _ s written hline,
      handleConnection_cons_short json lowerCase writeFails line tail s written hline,
      ih _ _ htail, ih _ _ htail]

theorem utf8ByteSize_replicate (n : Nat) :
    (String.mk (List.replicate n 'a')).utf8ByteSize = n := by
  induction n with
  | zero => rfl
  | succ n ih =>
    simp only [List.replicate_succ, String.utf8ByteSize, String.utf8ByteSize.go] at ih ⊢
    rw [ih]
    rfl

/-- C11 (counterexample): a line of 65536 letters followed by a line with the unknown action
"fly". Both lines are non-empty and no write fails, yet nothing is written: the scanner
gives up on the long line and the loop ends, although the second line alone is answered.
Likewise two "fly" lines on a connection whose first write fails get no response. -/
theorem long_line_ends_connection :
    longLine.utf8ByteSize = 65536 ∧
    ([longLine, "\x7b\"action\":\"fly\"\x7d"].filter (fun m => decide (m ≠ ""))).length = 2 ∧
    (handleConnection sampleJson sampleCaseTable (fun _ => false)
        [longLine, "\x7b\"action\":\"fly\"\x7d"]
        (Sys.init notepadWindows (fun _ => 101)) []).1 = [] ∧
    (handleConnection sampleJson sampleCaseTable (fun _ => false)
        ["\x7b\"action\":\"fly\"\x7d"]
        (Sys.init notepadWindows (fun _ => 101)) []).1 = ["error: Unknown action: fly\n"] ∧
    (handleConnection sampleJson sampleCaseTable (fun _ => true)
        ["\x7b\"action\":\"fly\"\x7d", "\x7b\"action\":\"fly\"\x7d"]
        (Sys.init notepadWindows (fun _ => 101)) []).1 = [] := by
  have hsize : longLine.utf8ByteSize = 65536 := utf8ByteSize_replicate 65536
  have hlong : MaxScanTokenSize ≤ longLine.utf8ByteSize := by
    rw [hsize]
    decide
  have hend := handleConnection_too_long sampleJson sampleCaseTable (fun _ => false) longLine
    ["\x7b\"action\":\"fly\"\x7d"] hlong [] (Sys.init notepadWindows (fun _ => 101)) []
    (fun _ h => absurd h (List.not_mem_nil _))
  rw [List.nil_append] at hend
  refine ⟨hsize, by decide, ?_, by decide, by decide⟩
  rw [hend]
  rfl

/-- C11 (amended): while the writes succeed and every line is shorter than 64 KiB,
`handleConnection` writes one response per non-empty line, in input order, each the marshalled
answer of `parseMessage` to the text of that line (the line without its trailing carriage
return) followed by a newline; empty lines produce nothing; what is written for the later
lines is what a fresh connection would write for them in the state the window system is then
in, so an error response (as to a malformed line) leaves the connection usable for the next
line; a line of 64 KiB or more ends the loop without a response. -/
theorem handleConnection_one_response_per_line (json : Json) (lowerCase : Char → Char)
    (writeFails : Nat → Bool) (hw : ∀ k, writeFails k = false) (lines : List String) (s : Sys)
    (hshort : ∀ line ∈ lines, line.utf8ByteSize < MaxScanTokenSize) :
    (handleConnection json lowerCase writeFails lines s []).1 =
      responses json lowerCase (lines.map dropCR) s ∧
    (handleConnection json lowerCase writeFails lines s []).1.length =
      ((lines.map dropCR).filter (fun m => decide (m ≠ ""))).length ∧
    (handleConnection json lowerCase writeFails
        (lines.filter (fun line => decide (dropCR line ≠ ""))) s []).1 =
      (handleConnection json lowerCase writeFails lines s []).1 ∧
    (∀ line : String, line.utf8ByteSize < MaxScanTokenSize → dropCR line ≠ "" →
      (handleConnection json lowerCase writeFails [line] s []).1 =
        [json.marshal (parseMessage json lowerCase (dropCR line) s).1 ++ "\n"]) ∧
    (∀ l1 l2 : List String, lines = l1 ++ l2 →
      (handleConnection json lowerCase writeFails lines s []).1 =
        (handleConnection json lowerCase writeFails l1 s []).1
          ++ (handleConnection json lowerCase writeFails l2
                (handleConnection json lowerCase writeFails l1 s []).2 []).1) ∧
    (∀ (line : String) (rest : List String) (err : String), lines = line :: rest →
      dropCR line ≠ "" → json.unmarshalAction (dropCR line) = .error err →
      (handleConnection json lowerCase writeFails lines s []).1 =
        (json.marshal (toJSON "error" ("Invalid JSON: " ++ err) none) ++ "\n")
          :: (handleConnection json lowerCase writeFails rest s []).1) ∧
    (∀ (long : String) (rest : List String), MaxScanTokenSize ≤ long.utf8ByteSize →
      handleConnection json lowerCase writeFails (lines ++ long :: rest) s [] =
        handleConnection json lowerCase writeFails lines s []) := by
  have hout : ∀ (ls : List String) (st : Sys),
      (∀ line ∈ ls, line.utf8ByteSize < MaxScanTokenSize) →
      (handleConnection json lowerCase writeFails ls st []).1 =
        responses json lowerCase (ls.map dropCR) st := by
    intro ls st hls
    simpa using (handleConnection_written json lowerCase writeFails hw ls st [] hls).1
  refine ⟨hout lines s hshort, ?_, ?_, ?_, ?_, ?_, ?_⟩
  · rw [hout lines s hshort, (responses_filter json lowerCase (lines.map dropCR) s).2]
  · have hfil : ∀ line ∈ lines.filter (fun line => decide (dropCR line ≠ "")),
        line.utf8ByteSize < MaxScanTokenSize :=
      fun line hl => hshort line (List.mem_of_mem_filter hl)
    have hmap : (lines.filter (fun line => decide (dropCR line ≠ ""))).map dropCR =
        (lines.map dropCR).filter (fun m => decide (m ≠ "")) := by
      rw [List.filter_map]
      rfl
    rw [hout _ s hfil, hout lines s hshort, hmap,
      (responses_filter json lowerCase (lines.map dropCR) s).1]
  · intro line hline hm
    rw [hout [line] s (by intro l hl; rw [List.mem_singleton.mp hl]; exact hline)]
    simp [responses, hm]
  · intro l1 l2 hsplit
    have h1 : ∀ line ∈ l1, line.utf8ByteSize < MaxScanTokenSize :=
      fun line hl => hshort line (by rw [hsplit]; exact List.mem_append_left _ hl)
    have h2 : ∀ line ∈ l2, line.utf8ByteSize < MaxScanTokenSize :=
      fun line hl => hshort line (by rw [hsplit]; exact List.mem_append_right _ hl)
    rw [hout lines s hshort, hout l1 s h1, hout l2 _ h2, hsplit]
    exact responses_append_lines json lowerCase writeFails hw l1 l2 s h1
  · intro line rest err hlines hm herr
    have hrest : ∀ l ∈ rest, l.utf8ByteSize < MaxScanTokenSize :=
      fun l hl => hshort l (by rw [hlines]; exact List.mem_cons_of_mem _ hl)
    rw [hout lines s hshort, hout rest s hrest, hlines]
    have hparse : parseMessage json lowerCase (dropCR line) s =
        (toJSON "error" ("Invalid JSON: " ++ err) none, s) := by
      simp only [parseMessage, length_ne_zero_of_ne_empty (dropCR line) hm, herr, if_false]
    simp [responses, hm, hparse]
  · intro long rest hlong
    exact handleConnection_too_long json lowerCase writeFails long rest hlong lines s [] hshort

/-- C11 (instance of the amended claim): the malformed line not-json, an empty line ending
with a carriage return, and a line with the unknown action "fly" give two responses. -/
theorem handleConnection_one_response_per_line_witness :
    (handleConnection sampleJson sampleCaseTable (fun _ => false)
        ["not-json\r", "\r", "\x7b\"action\":\"fly\"\x7d"]
        (Sys.init notepadWindows (fun _ => 101)) []).1 =
      ["error: Invalid JSON: invalid character\n", "error: Unknown action: fly\n"] :=
  (handleConnection_one_response_per_line sampleJson sampleCaseTable (fun _ => false)
    (fun _ => rfl) ["not-json\r", "\r", "\x7b\"action\":\"fly\"\x7d"]
    (Sys.init notepadWindows (fun _ => 101)) (by decide)).1.trans (by decide)

/-! ## The success response -/

theorem keyLoop_success_resolves (lowerCase : Char → Char) (windowTitle : String) :
    ∀ (keys pressed : List String) (held : List Nat) (s : Sys),
      (keyLoop lowerCase windowTitle keys pressed held s).1.status = "success" →
      ∀ k ∈ keys, resolves lowerCase k = true := by
  intro keys
  induction keys with
  | nil => intro _ _ _ _ k hk; simp at hk
  | cons key rest ih =>
    intro pressed held s hsucc k hk
    unfold keyLoop at hsucc
    cases hkey : vkCodeOf (toLower lowerCase key) with
    | none =>
      rw [hkey] at hsucc
      have herr : ("error" : String) ≠ "success" := by decide
      exact absurd hsucc herr
    | some vk =>
      rw [hkey] at hsucc
      have hres : resolves lowerCase key = true := by simp [resolves, hkey]
      rcases List.mem_cons.mp hk with rfl | hk
      · exact hres
      · cases hmod : isModifierKey (toLower lowerCase key) with
        | true =>
          simp only [hmod, if_true] at hsucc
          exact ih _ _ _ hsucc k hk
        | false =>
          simp only [hmod, Bool.false_eq_true, if_false] at hsucc
          exact ih _ _ _ hsucc k hk

/-- A success response is only given for a resolved and focused window and a sequence in
which every name has a key code. -/
theorem handleKeypress_success (lowerCase : Char → Char) (windowTitle : String)
    (keys : List String) (s : Sys)
    (hsucc : (handleKeypress lowerCase windowTitle keys s).1.status = "success") :
    (enumKeypress lowerCase windowTitle s.windows (0, [])).1 ≠ 0 ∧
    (focusWindow (enumKeypress lowerCase windowTitle s.windows (0, [])).1 s).1 = true ∧
    ∀ k ∈ keys, resolves lowerCase k = true := by
  have herr : ("error" : String) ≠ "success" := by decide
  by_cases h0 : (enumKeypress lowerCase windowTitle s.windows (0, [])).1 = 0
  · rw [handleKeypress_not_found lowerCase windowTitle keys s h0] at hsucc
    exact absurd hsucc herr
  · cases hf : (focusWindow (enumKeypress lowerCase windowTitle s.windows (0, [])).1 s).1 with
    | false =>
      rw [handleKeypress_unfocused lowerCase windowTitle keys s _ rfl h0 hf] at hsucc
      exact absurd hsucc herr
    | true =>
      rw [handleKeypress_focused lowerCase windowTitle keys s _ rfl h0 hf] at hsucc
      exact ⟨h0, rfl, keyLoop_success_resolves lowerCase windowTitle keys [] [] _ hsucc⟩

/-- C14 (counterexample): the pattern "notepad" resolves the window titled "Notepad"; the
success message names the pattern 'notepad' as sent, not the title 'Notepad' of the window
that received the key. -/
theorem success_message_not_matched_title :
    (enumKeypress sampleCaseTable "notepad" notepadWindows (0, [])).1 = 101 ∧
    (notepadWindows.filter (fun w => decide (w.handle = 101))).map (fun w => w.title)
      = ["Notepad"] ∧
    (handleKeypress sampleCaseTable "notepad" ["a"]
        (Sys.init notepadWindows (fun _ => 101))).1.status = "success" ∧
    (handleKeypress sampleCaseTable "notepad" ["a"]
        (Sys.init notepadWindows (fun _ => 101))).1.message =
      some "Pressed keys [a] in window 'notepad'" ∧
    (handleKeypress sampleCaseTable "notepad" ["a"]
        (Sys.init notepadWindows (fun _ => 101))).1.message ≠
      some "Pressed keys [a] in window 'Notepad'" := by
  decide

/-- C14 (amended): on a successful keypress the message is "Pressed keys [k1 ... kn] in
window '<pattern>'", with the key names of the request as given, in request order and
separated by spaces, and with the window title pattern the caller sent. -/
theorem success_message_echoes_keys_and_pattern (lowerCase : Char → Char)
    (windowTitle : String) (keys : List String) (s : Sys)
    (hsucc : (handleKeypress lowerCase windowTitle keys s).1.status = "success") :
    (handleKeypress lowerCase windowTitle keys s).1.message =
      some ("Pressed keys [" ++ " ".intercalate keys ++ "] in window '" ++ windowTitle ++ "'") := by
  obtain ⟨h0, hf, hall⟩ := handleKeypress_success lowerCase windowTitle keys s hsucc
  rw [handleKeypress_focused lowerCase windowTitle keys s _ rfl h0 hf,
    (keyLoop_resolved lowerCase windowTitle keys [] [] _ hall).1]
  have hpre : "Pressed keys " ++ "[" = "Pressed keys [" := by decide
  simp only [formatStrings, List.nil_append, String.append_assoc, Option.some.injEq]
  have hmid : "]" ++ " in window '" = "] in window '" := by decide
  rw [← String.append_assoc "Pressed keys " "[", hpre, ← String.append_assoc "]" " in window '",
    hmid]

/-- C14 (instance of the amended claim): "Ctrl" and "c" sent to the pattern "PAD". -/
theorem success_message_echoes_keys_and_pattern_witness :
    (handleKeypress sampleCaseTable "PAD" ["Ctrl", "c"]
        (Sys.init notepadWindows (fun _ => 101))).1.message =
      some "Pressed keys [Ctrl c] in window 'PAD'" :=
  success_message_echoes_keys_and_pattern sampleCaseTable "PAD" ["Ctrl", "c"]
    (Sys.init notepadWindows (fun _ => 101)) (by decide)

/-! ## The focus loop: number of requests -/

@[simp] theorem requestCount_nil : requestCount [] = 0 := rfl

@[simp] theorem requestCount_append (t u : List Call) :
    requestCount (t ++ u) = requestCount t + requestCount u := by
  simp [requestCount]

@[simp] theorem requestCount_cons_request (hwnd : Nat) (t : List Call) :
    requestCount (.setForegroundWindow hwnd :: t) = requestCount t + 1 := by
  simp [requestCount, Call.isRequest]

@[simp] theorem requestCount_cons_poll (t : List Call) :
    requestCount (.getForegroundWindow :: t) = requestCount t := by
  simp [requestCount, Call.isRequest]

@[simp] theorem requestCount_cons_sleep (ms : Nat) (t : List Call) :
    requestCount (.sleep ms :: t) = requestCount t := by
  simp [requestCount, Call.isRequest]

@[simp] theorem requestCount_cons_show (hwnd cmd : Nat) (t : List Call) :
    requestCount (.showWindow hwnd cmd :: t) = requestCount t := by
  simp [requestCount, Call.isRequest]

@[simp] theorem requestCount_cons_key (vk flags : Nat) (t : List Call) :
    requestCount (.keybd_event vk flags :: t) = requestCount t := by
  simp [requestCount, Call.isRequest]

theorem monitor_poll (foreground : Nat → Nat) (hwnd polls : Nat) (confirmed : Bool)
    (t : List Call) :
    noRequestAfterConfirm foreground hwnd polls confirmed (.getForegroundWindow :: t) =
      noRequestAfterConfirm foreground hwnd (polls + 1)
        (confirmed || decide (foreground polls = hwnd)) t := rfl

theorem monitor_request (foreground : Nat → Nat) (hwnd polls : Nat) (confirmed : Bool)
    (h : Nat) (t : List Call) :
    noRequestAfterConfirm foreground hwnd polls confirmed (.setForegroundWindow h :: t) =
      (!confirmed && noRequestAfterConfirm foreground hwnd polls confirmed t) := rfl

theorem monitor_sleep (foreground : Nat → Nat) (hwnd polls : Nat) (confirmed : Bool)
    (ms : Nat) (t : List Call) :
    noRequestAfterConfirm foreground hwnd polls confirmed (.sleep ms :: t) =
      noRequestAfterConfirm foreground hwnd polls confirmed t := rfl

theorem monitor_show (foreground : Nat → Nat) (hwnd polls : Nat) (confirmed : Bool)
    (h cmd : Nat) (t : List Call) :
    noRequestAfterConfirm foreground hwnd polls confirmed (.showWindow h cmd :: t) =
      noRequestAfterConfirm foreground hwnd polls confirmed t := rfl

theorem monitor_key (foreground : Nat → Nat) (hwnd polls : Nat) (confirmed : Bool)
    (vk flags : Nat) (t : List Call) :
    noRequestAfterConfirm foreground hwnd polls confirmed (.keybd_event vk flags :: t) =
      noRequestAfterConfirm foreground hwnd polls confirmed t := rfl

/-- A trace without a foreground request is accepted by the monitor. -/
theorem monitor_no_request (foreground : Nat → Nat) (hwnd : Nat) :
    ∀ (t : List Call) (polls : Nat) (confirmed : Bool), requestCount t = 0 →
      noRequestAfterConfirm foreground hwnd polls confirmed t = true := by
  intro t
  induction t with
  | nil => intro _ _ _; rfl
  | cons c t ih =>
    intro polls confirmed h
    cases c with
    | showWindow a b => rw [monitor_show]; exact ih _ _ (by simpa using h)
    | setForegroundWindow a => simp at h
    | getForegroundWindow => rw [monitor_poll]; exact ih _ _ (by simpa using h)
    | keybd_event a b => rw [monitor_key]; exact ih _ _ (by simpa using h)
    | sleep a => rw [monitor_sleep]; exact ih _ _ (by simpa using h)

/-- What one polling loop issues: polls and sleeps only; the monitor leaves it with the
flag raised exactly when the loop reports success. -/
theorem waitLoop_issued (hwnd deadline : Nat) :
    ∀ (fuel : Nat) (s : Sys), ∃ issued : List Call,
      (waitLoop hwnd deadline fuel s).2.trace = s.trace ++ issued ∧
      requestCount issued = 0 ∧
      (waitLoop hwnd deadline fuel s).2.foreground = s.foreground ∧
      ∀ (confirmed : Bool) (rest : List Call),
        noRequestAfterConfirm s.foreground hwnd s.polls confirmed (issued ++ rest) =
          noRequestAfterConfirm s.foreground hwnd (waitLoop hwnd deadline fuel s).2.polls
            (confirmed || (waitLoop hwnd deadline fuel s).1) rest := by
  intro fuel
  induction fuel with
  | zero =>
    intro s
    exact ⟨[], by simp [waitLoop], rfl, rfl, by intro c rest; simp [waitLoop]⟩
  | succ n ih =>
    intro s
    by_cases hnow : s.now < deadline
    · by_cases hfg : s.foreground s.polls = hwnd
      · have hw : waitLoop hwnd deadline (n + 1) s = (true, (getForegroundWindow s).2) := by
          simp [waitLoop, hnow, getForegroundWindow, hfg]
        rw [hw]
        refine ⟨[.getForegroundWindow], rfl, rfl, rfl, ?_⟩
        intro c rest
        show noRequestAfterConfirm s.foreground hwnd s.polls c (.getForegroundWindow :: rest) = _
        rw [monitor_poll]
        simp [hfg, getForegroundWindow]
      · have hw : waitLoop hwnd deadline (n + 1) s =
            waitLoop hwnd deadline n (sleep 25 (getForegroundWindow s).2) := by
          simp [waitLoop, hnow, getForegroundWindow, hfg]
        rw [hw]
        obtain ⟨issued, htrace, hcount, hfore, hmon⟩ := ih (sleep 25 (getForegroundWindow s).2)
        refine ⟨.getForegroundWindow :: .sleep 25 :: issued, ?_, ?_, ?_, ?_⟩
        · rw [htrace]
          simp
        · simpa using hcount
        · rw [hfore]
          rfl
        · intro c rest
          have h := hmon c rest
          show noRequestAfterConfirm s.foreground hwnd s.polls c
            (.getForegroundWindow :: .sleep 25 :: (issued ++ rest)) = _
          rw [monitor_poll, monitor_sleep]
          have hdec : decide (s.foreground s.polls = hwnd) = false := by simp [hfg]
          rw [hdec, Bool.or_false]
          exact h
    · have hw : waitLoop hwnd deadline (n + 1) s = (false, s) := by
        simp [waitLoop, hnow]
      rw [hw]
      exact ⟨[], by simp, rfl, rfl, by intro c rest; simp⟩

theorem focusLoop_succ (hwnd n : Nat) (s : Sys) :
    focusLoop hwnd (n + 1) s =
      if (waitForForeground hwnd 350 (setForegroundWindow hwnd s)).1 = true then
        (waitForForeground hwnd 350 (setForegroundWindow hwnd s)).2
      else focusLoop hwnd n (sleep 75 (waitForForeground hwnd 350 (setForegroundWindow hwnd s)).2) := by
  cases h : waitForForeground hwnd 350 (setForegroundWindow hwnd s) with
  | mk ok s1 =>
    cases ok <;> simp [focusLoop, h]

/-- What the retry loop issues: between one and `n` requests, none after a confirming poll,
and a single one when the first round of polls confirms. -/
theorem focusLoop_issued (hwnd : Nat) :
    ∀ (n : Nat) (s : Sys), ∃ issued : List Call,
      (focusLoop hwnd n s).trace = s.trace ++ issued ∧
      requestCount issued ≤ n ∧
      (0 < n → 0 < requestCount issued) ∧
      (∀ c ∈ issued, c.isRequest = true → c = .setForegroundWindow hwnd) ∧
      (∀ rest : List Call, requestCount rest = 0 →
        noRequestAfterConfirm s.foreground hwnd s.polls false (issued ++ rest) = true) ∧
      (0 < n → (waitForForeground hwnd 350 (setForegroundWindow hwnd s)).1 = true →
        requestCount issued = 1) := by
  intro n
  induction n with
  | zero =>
    intro s
    refine ⟨[], by simp [focusLoop], by simp, by simp, by simp, ?_, by simp⟩
    intro rest hrest
    exact monitor_no_request _ _ _ _ _ hrest
  | succ n ih =>
    intro s
    obtain ⟨wIssued, hwtrace, hwcount, hwfore, hwmon⟩ :=
      waitLoop_issued hwnd ((setForegroundWindow hwnd s).now + 350) (350 + 1)
        (setForegroundWindow hwnd s)
    have hwreq : ∀ c ∈ wIssued, c.isRequest = false := by
      intro c hc
      have hfil : wIssued.filter Call.isRequest = [] := List.length_eq_zero.mp hwcount
      have := List.filter_eq_nil_iff.mp hfil c hc
      simpa using this
    rw [focusLoop_succ]
    cases hok : (waitForForeground hwnd 350 (setForegroundWindow hwnd s)).1 with
    | true =>
      simp only [if_true]
      refine ⟨.setForegroundWindow hwnd :: wIssued, ?_, ?_, ?_, ?_, ?_, ?_⟩
      · show (waitLoop hwnd _ _ _).2.trace = _
        rw [hwtrace]
        simp
      · simp [hwcount]
      · intro _; simp
      · intro c hc hreq
        rcases List.mem_cons.mp hc with rfl | hc
        · rfl
        · rw [hwreq c hc] at hreq
          exact absurd hreq (by decide)
      · intro rest hrest
        show noRequestAfterConfirm s.foreground hwnd s.polls false
          (.setForegroundWindow hwnd :: (wIssued ++ rest)) = true
        rw [monitor_request]
        have h := hwmon false rest
        simp only [setForegroundWindow_foreground] at h
        have hp : (setForegroundWindow hwnd s).polls = s.polls := rfl
        rw [hp] at h
        rw [h]
        simp only [Bool.not_false, Bool.true_and]
        exact monitor_no_request _ _ _ _ _ hrest
      · intro _ _
        simp [hwcount]
    | false =>
      simp only [Bool.false_eq_true, if_false]
      obtain ⟨fIssued, hftrace, hfcount, _, hfreq, hfmon, _⟩ :=
        ih (sleep 75 (waitForForeground hwnd 350 (setForegroundWindow hwnd s)).2)
      refine ⟨.setForegroundWindow hwnd :: (wIssued ++ .sleep 75 :: fIssued), ?_, ?_, ?_, ?_,
        ?_, ?_⟩
      · rw [hftrace]
        have h2 : (waitForForeground hwnd 350 (setForegroundWindow hwnd s)).2.trace =
            (setForegroundWindow hwnd s).trace ++ wIssued := hwtrace
        simp [h2]
      · simp [hwcount]
        omega
      · intro _; simp
      · intro c hc hreq
        rcases List.mem_cons.mp hc with rfl | hc
        · rfl
        · rcases List.mem_append.mp hc with hc | hc
          · rw [hwreq c hc] at hreq
            exact absurd hreq (by decide)
          · rcases List.mem_cons.mp hc with rfl | hc
            · exact absurd hreq (by decide)
            · exact hfreq c hc hreq
      · intro rest hrest
        show noRequestAfterConfirm s.foreground hwnd s.polls false
          (.setForegroundWindow hwnd :: ((wIssued ++ .sleep 75 :: fIssued) ++ rest)) = true
        rw [monitor_request, List.append_assoc]
        have h := hwmon false (.sleep 75 :: fIssued ++ rest)
        simp only [setForegroundWindow_foreground] at h
        have hp : (setForegroundWindow hwnd s).polls = s.polls := rfl
        rw [hp] at h
        have hok2 : (waitLoop hwnd ((setForegroundWindow hwnd s).now + 350) (350 + 1)
            (setForegroundWindow hwnd s)).1 = false := hok
        rw [hok2] at h
        simp only [List.cons_append] at h ⊢
        rw [h]
        simp only [Bool.not_false, Bool.true_and, Bool.or_false]
        rw [monitor_sleep]
        have h3 := hfmon rest hrest
        have hfore2 : (sleep 75 (waitForForeground hwnd 350
            (setForegroundWindow hwnd s)).2).foreground = s.foreground := by
          show (waitLoop hwnd _ _ _).2.foreground = _
          rw [hwfore]
          rfl
        rw [hfore2] at h3
        exact h3
      · intro _ hfirst
        exact absurd hfirst (by simp)

theorem releaseEvents_requestCount (held : List Nat) : requestCount (releaseEvents held) = 0 := by
  induction held with
  | nil => rfl
  | cons vk rest ih => simpa [releaseEvents] using ih

/-- What the key loop issues holds no foreground request. -/
theorem keyLoop_issued (lowerCase : Char → Char) (windowTitle : String) :
    ∀ (keys pressed : List String) (held : List Nat) (s : Sys), ∃ issued : List Call,
      (keyLoop lowerCase windowTitle keys pressed held s).2.trace = s.trace ++ issued ∧
      requestCount issued = 0 := by
  intro keys
  induction keys with
  | nil =>
    intro pressed held s
    exact ⟨releaseEvents held, by rw [keyLoop_nil, releaseLoop_trace],
      releaseEvents_requestCount held⟩
  | cons key rest ih =>
    intro pressed held s
    unfold keyLoop
    cases hkey : vkCodeOf (toLower lowerCase key) with
    | none => exact ⟨[], by simp, rfl⟩
    | some vk =>
      cases hmod : isModifierKey (toLower lowerCase key) with
      | true =>
        obtain ⟨issued, htrace, hcount⟩ := ih (pressed ++ [key]) (held ++ [vk])
          (sleep 50 (keybd_event vk 0 s))
        refine ⟨.keybd_event vk 0 :: .sleep 50 :: issued, ?_, by simpa using hcount⟩
        simp only [if_true]
        rw [htrace]
        simp
      | false =>
        obtain ⟨issued, htrace, hcount⟩ := ih (pressed ++ [key]) held
          (sleep 50 (keybd_event vk KEYEVENTF_KEYUP (sleep 50 (keybd_event vk 0 s))))
        refine ⟨.keybd_event vk 0 :: .sleep 50 :: .keybd_event vk KEYEVENTF_KEYUP :: .sleep 50
          :: issued, ?_, by simpa using hcount⟩
        simp only [Bool.false_eq_true, if_false]
        rw [htrace]
        simp

/-- What the focus stage issues: the restore call, then the retry loop and the final poll. -/
theorem focusWindow_issued (hwnd : Nat) (s : Sys) : ∃ issued : List Call,
    (focusWindow hwnd s).2.trace = s.trace ++ .showWindow hwnd SW_RESTORE :: issued ∧
    1 ≤ requestCount issued ∧ requestCount issued ≤ 5 ∧
    (∀ c ∈ issued, c.isRequest = true → c = .setForegroundWindow hwnd) ∧
    (∀ rest : List Call, requestCount rest = 0 →
      noRequestAfterConfirm s.foreground hwnd s.polls false
        (.showWindow hwnd SW_RESTORE :: (issued ++ rest)) = true) ∧
    ((waitForForeground hwnd 350
        (setForegroundWindow hwnd (showWindow hwnd SW_RESTORE s))).1 = true →
      requestCount issued = 1) ∧
    keyCalls issued = [] := by
  obtain ⟨fIssued, hftrace, hfle, hfge, hfreq, hfmon, hfone⟩ :=
    focusLoop_issued hwnd 5 (showWindow hwnd SW_RESTORE s)
  obtain ⟨wIssued, hwtrace, hwcount, _, _⟩ :=
    waitLoop_issued hwnd ((focusLoop hwnd 5 (showWindow hwnd SW_RESTORE s)).now + 100) (100 + 1)
      (focusLoop hwnd 5 (showWindow hwnd SW_RESTORE s))
  have hwreq : ∀ c ∈ wIssued, c.isRequest = false := by
    intro c hc
    have hfil : wIssued.filter Call.isRequest = [] := List.length_eq_zero.mp hwcount
    have := List.filter_eq_nil_iff.mp hfil c hc
    simpa using this
  have htrace : (focusWindow hwnd s).2.trace =
      s.trace ++ .showWindow hwnd SW_RESTORE :: (fIssued ++ wIssued) := by
    show (waitLoop hwnd _ _ _).2.trace = _
    rw [hwtrace, hftrace]
    simp
  refine ⟨fIssued ++ wIssued, htrace, ?_, ?_, ?_, ?_, ?_, ?_⟩
  · have := hfge (by decide)
    simp [hwcount]
    omega
  · simp [hwcount]
    omega
  · intro c hc hreq
    rcases List.mem_append.mp hc with hc | hc
    · exact hfreq c hc hreq
    · rw [hwreq c hc] at hreq
      exact absurd hreq (by decide)
  · intro rest hrest
    rw [monitor_show, List.append_assoc]
    exact hfmon (wIssued ++ rest) (by simp [hwcount, hrest])
  · intro hfirst
    have := hfone (by decide) hfirst
    simp [hwcount, this]
  · have hframe := (focusWindow_frame hwnd s).2
    rw [htrace, keyCalls_append] at hframe
    have hnil := List.append_right_eq_self.mp hframe
    simpa [keyCalls, Call.isKey] using hnil

/-- C16: for a keypress command whose target is resolved, whatever the window system
answers, the issued calls hold at least one and at most 5 foreground requests, all for the
target; no request follows a poll that reported the target in the foreground; and there is
exactly one request when the first round of polls confirms. -/
theorem focus_requests_bounded (lowerCase : Char → Char) (windowTitle : String)
    (keys : List String) (s : Sys) (hwnd : Nat)
    (hres : (enumKeypress lowerCase windowTitle s.windows (0, [])).1 = hwnd) (hne : hwnd ≠ 0) :
    ∃ issued : List Call,
      (handleKeypress lowerCase windowTitle keys s).2.trace = s.trace ++ issued ∧
      1 ≤ requestCount issued ∧ requestCount issued ≤ 5 ∧
      (∀ c ∈ issued, c.isRequest = true → c = .setForegroundWindow hwnd) ∧
      noRequestAfterConfirm s.foreground hwnd s.polls false issued = true ∧
      ((waitForForeground hwnd 350
          (setForegroundWindow hwnd (showWindow hwnd SW_RESTORE s))).1 = true →
        requestCount issued = 1) := by
  obtain ⟨fIssued, hftrace, hge, hle, hreq, hmon, hone, _⟩ := focusWindow_issued hwnd s
  have hkey : ∃ kIssued : List Call,
      (handleKeypress lowerCase windowTitle keys s).2.trace =
        (focusWindow hwnd s).2.trace ++ kIssued ∧ requestCount kIssued = 0 := by
    cases hf : (focusWindow hwnd s).1 with
    | false =>
      rw [handleKeypress_unfocused lowerCase windowTitle keys s hwnd hres hne hf]
      exact ⟨[], by simp, rfl⟩
    | true =>
      rw [handleKeypress_focused lowerCase windowTitle keys s hwnd hres hne hf]
      exact keyLoop_issued lowerCase windowTitle keys [] [] _
  obtain ⟨kIssued, hktrace, hkcount⟩ := hkey
  have hkreq : ∀ c ∈ kIssued, c.isRequest = false := by
    intro c hc
    have hfil : kIssued.filter Call.isRequest = [] := List.length_eq_zero.mp hkcount
    have := List.filter_eq_nil_iff.mp hfil c hc
    simpa using this
  refine ⟨.showWindow hwnd SW_RESTORE :: (fIssued ++ kIssued), ?_, ?_, ?_, ?_, ?_, ?_⟩
  · rw [hktrace, hftrace]
    simp
  · simp [hkcount]
    omega
  · simp [hkcount]
    omega
  · intro c hc hc2
    rcases List.mem_cons.mp hc with rfl | hc
    · exact absurd hc2 (by simp [Call.isRequest])
    · rcases List.mem_append.mp hc with hc | hc
      · exact hreq c hc hc2
      · rw [hkreq c hc] at hc2
        exact absurd hc2 (by decide)
  · exact hmon kIssued hkcount
  · intro hfirst
    simp [hkcount, hone hfirst]

/-- C16 (instance): "Notepad" comes to the foreground at the twentieth poll, during the
second round. -/
theorem focus_requests_bounded_witness :
    ∃ issued : List Call,
      (handleKeypress sampleCaseTable "notepad" ["a"]
        (Sys.init notepadWindows (fun k => if k < 20 then 999 else 101))).2.trace =
        (Sys.init notepadWindows (fun k => if k < 20 then 999 else 101)).trace ++ issued ∧
      1 ≤ requestCount issued ∧ requestCount issued ≤ 5 ∧
      (∀ c ∈ issued, c.isRequest = true → c = .setForegroundWindow 101) ∧
      noRequestAfterConfirm (fun k => if k < 20 then 999 else 101) 101 0 false issued = true ∧
      ((waitForForeground 101 350
          (setForegroundWindow 101 (showWindow 101 SW_RESTORE
            (Sys.init notepadWindows (fun k => if k < 20 then 999 else 101))))).1 = true →
        requestCount issued = 1) :=
  focus_requests_bounded sampleCaseTable "notepad" ["a"]
    (Sys.init notepadWindows (fun k => if k < 20 then 999 else 101)) 101 (by decide) (by decide)

/-! ## The restore call -/

/-- The restore call is issued for every resolved window, before anything else. -/
theorem handleKeypress_always_restores (lowerCase : Char → Char) (windowTitle : String)
    (keys : List String) (s : Sys) (hwnd : Nat)
    (hres : (enumKeypress lowerCase windowTitle s.windows (0, [])).1 = hwnd) (hne : hwnd ≠ 0) :
    ∃ rest : List Call,
      (handleKeypress lowerCase windowTitle keys s).2.trace =
        s.trace ++ .showWindow hwnd SW_RESTORE :: rest := by
  obtain ⟨fIssued, hftrace, _⟩ := focusWindow_issued hwnd s
  cases hf : (focusWindow hwnd s).1 with
  | false =>
    rw [handleKeypress_unfocused lowerCase windowTitle keys s hwnd hres hne hf]
    exact ⟨fIssued, hftrace⟩
  | true =>
    rw [handleKeypress_focused lowerCase windowTitle keys s hwnd hres hne hf]
    obtain ⟨kIssued, hktrace, _⟩ := keyLoop_issued lowerCase windowTitle keys [] []
      (focusWindow hwnd s).2
    exact ⟨fIssued ++ kIssued, by rw [hktrace, hftrace]; simp⟩

/-- C17 (evaluation at the failing input): the resolved window "Notepad" is not minimized
and is already in the foreground, yet the first call issued is the restore call on it,
before focus is requested. -/
theorem handleKeypress_restores_unminimized_window :
    (enumKeypress sampleCaseTable "notepad" notepadWindows (0, [])).1 = 101 ∧
    (notepadWindows.filter (fun w => decide (w.handle = 101))).map (fun w => w.minimized)
      = [false] ∧
    (handleKeypress sampleCaseTable "notepad" ["a"]
        (Sys.init notepadWindows (fun _ => 101))).2.trace =
      [.showWindow 101 SW_RESTORE, .setForegroundWindow 101, .getForegroundWindow,
       .getForegroundWindow, .keybd_event 0x41 0, .sleep 50,
       .keybd_event 0x41 KEYEVENTF_KEYUP, .sleep 50] := by
  decide

/-! ## Accepted and documented key names -/

/-- C18 (evaluation at the failing input): the switch has a case for "printscreen" (0x2C) and
for "pause" (0x13), so a sequence of them is answered with success, but no category list of
`getAllowedKeys` holds either name. -/
theorem printscreen_pause_accepted_not_listed :
    vkCodeOf (toLower sampleCaseTable "printscreen") = some 0x2C ∧
    vkCodeOf (toLower sampleCaseTable "pause") = some 0x13 ∧
    (∀ p ∈ getAllowedKeys, "printscreen" ∉ p.2 ∧ "pause" ∉ p.2) ∧
    "printscreen" ∉ allowedNames ∧ "pause" ∉ allowedNames ∧
    (handleKeypress sampleCaseTable "notepad" ["printscreen", "pause"]
        (Sys.init notepadWindows (fun _ => 101))).1.status = "success" := by
  decide

/-! ## Key-down and key-up events of a successful command -/

theorem downs_cons_down (vk c : Nat) (t : List Call) :
    downs vk (.keybd_event c 0 :: t) = downs vk t + if c = vk then 1 else 0 := by
  simp [downs, List.count_cons]

theorem downs_cons_up (vk c : Nat) (t : List Call) :
    downs vk (.keybd_event c KEYEVENTF_KEYUP :: t) = downs vk t := by
  simp [downs, List.count_cons, KEYEVENTF_KEYUP]

theorem downs_cons_sleep (vk ms : Nat) (t : List Call) :
    downs vk (.sleep ms :: t) = downs vk t := by
  simp [downs, List.count_cons]

theorem ups_cons_up (vk c : Nat) (t : List Call) :
    ups vk (.keybd_event c KEYEVENTF_KEYUP :: t) = ups vk t + if c = vk then 1 else 0 := by
  simp [ups, List.count_cons]

theorem ups_cons_down (vk c : Nat) (t : List Call) :
    ups vk (.keybd_event c 0 :: t) = ups vk t := by
  simp [ups, List.count_cons, KEYEVENTF_KEYUP]

theorem ups_cons_sleep (vk ms : Nat) (t : List Call) :
    ups vk (.sleep ms :: t) = ups vk t := by
  simp [ups, List.count_cons]

theorem downs_nil (vk : Nat) : downs vk [] = 0 := rfl

theorem ups_nil (vk : Nat) : ups vk [] = 0 := rfl

theorem count_append_singleton (vk c : Nat) (held : List Nat) :
    (held ++ [c]).count vk = held.count vk + if c = vk then 1 else 0 := by
  simp [List.count_append, List.count_cons]

/-- A trace without key events counts no key-down and no key-up, in any of its prefixes. -/
theorem no_key_calls_take (t : List Call) (h : keyCalls t = []) (vk i : Nat) :
    downs vk (t.take i) = 0 ∧ ups vk (t.take i) = 0 := by
  have hno : ∀ c ∈ t.take i, ¬ Call.isKey c = true := by
    intro c hc
    exact List.filter_eq_nil_iff.mp h c (List.mem_of_mem_take hc)
  constructor
  · apply List.count_eq_zero.mpr
    intro hmem
    exact hno _ hmem rfl
  · apply List.count_eq_zero.mpr
    intro hmem
    exact hno _ hmem rfl

theorem releaseEvents_counts (vk : Nat) :
    ∀ held : List Nat,
      downs vk (releaseEvents held) = 0 ∧ ups vk (releaseEvents held) = held.count vk := by
  intro held
  induction held with
  | nil => exact ⟨rfl, rfl⟩
  | cons c rest ih =>
    simp only [releaseEvents, downs_cons_up, downs_cons_sleep, ups_cons_up, ups_cons_sleep,
      List.count_cons, ih.1, ih.2, beq_iff_eq, true_and]

theorem releaseEvents_take (vk : Nat) :
    ∀ (held : List Nat) (i : Nat), ups vk ((releaseEvents held).take i) ≤ held.count vk := by
  intro held
  induction held with
  | nil => intro i; simp [releaseEvents, ups_nil]
  | cons c rest ih =>
    intro i
    rcases i with _ | _ | i
    · simp [ups_nil]
    · simp only [releaseEvents, List.take_succ_cons, List.take_zero, ups_cons_up, ups_nil,
        List.count_cons, beq_iff_eq]
      omega
    · have h := ih i
      simp only [releaseEvents, List.take_succ_cons, ups_cons_up, ups_cons_sleep,
        List.count_cons, beq_iff_eq]
      omega

theorem keyEvents_cons_none (lowerCase : Char → Char) (key : String) (rest : List String)
    (held : List Nat) (h : vkCodeOf (toLower lowerCase key) = none) :
    pressEvents lowerCase (key :: rest) ++ releaseEvents (held ++ heldCodes lowerCase (key :: rest)) =
      pressEvents lowerCase rest ++ releaseEvents (held ++ heldCodes lowerCase rest) := by
  simp [pressEvents, heldCodes, h]

theorem keyEvents_cons_modifier (lowerCase : Char → Char) (key : String) (rest : List String)
    (held : List Nat) (vk : Nat) (h : vkCodeOf (toLower lowerCase key) = some vk)
    (hmod : isModifierKey (toLower lowerCase key) = true) :
    pressEvents lowerCase (key :: rest) ++ releaseEvents (held ++ heldCodes lowerCase (key :: rest)) =
      .keybd_event vk 0 :: .sleep 50
        :: (pressEvents lowerCase rest ++ releaseEvents ((held ++ [vk]) ++ heldCodes lowerCase rest)) := by
  simp [pressEvents, heldCodes, h, hmod, pressCalls]

theorem keyEvents_cons_regular (lowerCase : Char → Char) (key : String) (rest : List String)
    (held : List Nat) (vk : Nat) (h : vkCodeOf (toLower lowerCase key) = some vk)
    (hmod : isModifierKey (toLower lowerCase key) = false) :
    pressEvents lowerCase (key :: rest) ++ releaseEvents (held ++ heldCodes lowerCase (key :: rest)) =
      .keybd_event vk 0 :: .sleep 50 :: .keybd_event vk KEYEVENTF_KEYUP :: .sleep 50
        :: (pressEvents lowerCase rest ++ releaseEvents (held ++ heldCodes lowerCase rest)) := by
  simp [pressEvents, heldCodes, h, hmod, pressCalls]

/-- The key events of a sequence: as many key-ups as key-downs plus the modifiers already
held, and one key-down per key of the sequence with that code. -/
theorem keyEvents_counts (lowerCase : Char → Char) (vk : Nat) :
    ∀ (keys : List String) (held : List Nat),
      ups vk (pressEvents lowerCase keys ++ releaseEvents (held ++ heldCodes lowerCase keys)) =
        downs vk (pressEvents lowerCase keys ++ releaseEvents (held ++ heldCodes lowerCase keys))
          + held.count vk ∧
      downs vk (pressEvents lowerCase keys ++ releaseEvents (held ++ heldCodes lowerCase keys)) =
        (keys.filter (fun k => decide (vkCodeOf (toLower lowerCase k) = some vk))).length := by
  intro keys
  induction keys with
  | nil =>
    intro held
    have h := releaseEvents_counts vk held
    simp [pressEvents, heldCodes, h.1, h.2]
  | cons key rest ih =>
    intro held
    cases hkey : vkCodeOf (toLower lowerCase key) with
    | none =>
      rw [keyEvents_cons_none lowerCase key rest held hkey]
      have h := ih held
      simp only [List.filter_cons, hkey]
      simpa using h
    | some c =>
      cases hmod : isModifierKey (toLower lowerCase key) with
      | true =>
        rw [keyEvents_cons_modifier lowerCase key rest held c hkey hmod]
        have h := ih (held ++ [c])
        rw [count_append_singleton] at h
        simp only [ups_cons_down, ups_cons_sleep, downs_cons_down, downs_cons_sleep,
          List.filter_cons, hkey, Option.some.injEq]
        by_cases hc : c = vk
        · simp only [hc, if_true, decide_True, List.length_cons] at h ⊢
          omega
        · simp only [hc, if_false, decide_False, Bool.false_eq_true] at h ⊢
          omega
      | false =>
        rw [keyEvents_cons_regular lowerCase key rest held c hkey hmod]
        have h := ih held
        simp only [ups_cons_down, ups_cons_sleep, ups_cons_up, downs_cons_down, downs_cons_sleep,
          downs_cons_up, List.filter_cons, hkey, Option.some.injEq]
        by_cases hc : c = vk
        · simp only [hc, if_true, decide_True, List.length_cons] at h ⊢
          omega
        · simp only [hc, if_false, decide_False, Bool.false_eq_true] at h ⊢
          omega

/-- In every prefix of the key events of a sequence, the key-ups of a code do not exceed its
key-downs plus the modifiers already held. -/
theorem keyEvents_take (lowerCase : Char → Char) (vk : Nat) :
    ∀ (keys : List String) (held : List Nat) (i : Nat),
      ups vk ((pressEvents lowerCase keys
          ++ releaseEvents (held ++ heldCodes lowerCase keys)).take i) ≤
        downs vk ((pressEvents lowerCase keys
          ++ releaseEvents (held ++ heldCodes lowerCase keys)).take i) + held.count vk := by
  intro keys
  induction keys with
  | nil =>
    intro held i
    have h := releaseEvents_take vk held i
    simp only [pressEvents, heldCodes, List.nil_append, List.append_nil]
    omega
  | cons key rest ih =>
    intro held i
    cases hkey : vkCodeOf (toLower lowerCase key) with
    | none =>
      rw [keyEvents_cons_none lowerCase key rest held hkey]
      exact ih held i
    | some c =>
      cases hmod : isModifierKey (toLower lowerCase key) with
      | true =>
        rw [keyEvents_cons_modifier lowerCase key rest held c hkey hmod]
        rcases i with _ | _ | i
        · simp [ups_nil, downs_nil]
        · simp only [List.take_succ_cons, List.take_zero, ups_cons_down, ups_nil,
            downs_cons_down, downs_nil]
          omega
        · have h := ih (held ++ [c]) i
          rw [count_append_singleton] at h
          simp only [List.take_succ_cons, ups_cons_down, ups_cons_sleep, downs_cons_down,
            downs_cons_sleep]
          omega
      | false =>
        rw [keyEvents_cons_regular lowerCase key rest held c hkey hmod]
        rcases i with _ | _ | _ | _ | i
        · simp [ups_nil, downs_nil]
        · simp only [List.take_succ_cons, List.take_zero, ups_cons_down, ups_nil,
            downs_cons_down, downs_nil]
          omega
        · simp only [List.take_succ_cons, List.take_zero, ups_cons_down, ups_cons_sleep, ups_nil,
            downs_cons_down, downs_cons_sleep, downs_nil]
          omega
        · simp only [List.take_succ_cons, List.take_zero, ups_cons_down, ups_cons_sleep,
            ups_cons_up, ups_nil, downs_cons_down, downs_cons_sleep, downs_cons_up, downs_nil]
          omega
        · have h := ih held i
          simp only [List.take_succ_cons, ups_cons_down, ups_cons_sleep, ups_cons_up,
            downs_cons_down, downs_cons_sleep, downs_cons_up]
          omega

/-- C20: no key is left held after a successful keypress. In the calls issued by a command
answered with success, every key code has as many key-up as key-down events, in every prefix
of the issued calls the key-ups of a code do not exceed its key-downs (a key-up always comes
after a key-down of its code), and a code is pressed once per key of the request that
resolves to it. -/
theorem success_leaves_no_key_held (lowerCase : Char → Char) (windowTitle : String)
    (keys : List String) (s : Sys)
    (hsucc : (handleKeypress lowerCase windowTitle keys s).1.status = "success") :
    ∃ issued : List Call,
      (handleKeypress lowerCase windowTitle keys s).2.trace = s.trace ++ issued ∧
      (∀ vk : Nat, ups vk issued = downs vk issued) ∧
      (∀ vk i : Nat, ups vk (issued.take i) ≤ downs vk (issued.take i)) ∧
      (∀ vk : Nat, downs vk issued =
        (keys.filter (fun k => decide (vkCodeOf (toLower lowerCase k) = some vk))).length) := by
  obtain ⟨h0, hf, hall⟩ := handleKeypress_success lowerCase windowTitle keys s hsucc
  obtain ⟨fIssued, hftrace, _, _, _, _, _, hfkeys⟩ :=
    focusWindow_issued (enumKeypress lowerCase windowTitle s.windows (0, [])).1 s
  have hF : keyCalls (.showWindow (enumKeypress lowerCase windowTitle s.windows (0, [])).1
      SW_RESTORE :: fIssued) = [] := by
    simpa [keyCalls, Call.isKey] using hfkeys
  have hFall := no_key_calls_take _ hF
  have hFfull : ∀ vk : Nat,
      downs vk (.showWindow (enumKeypress lowerCase windowTitle s.windows (0, [])).1
        SW_RESTORE :: fIssued) = 0 ∧
      ups vk (.showWindow (enumKeypress lowerCase windowTitle s.windows (0, [])).1
        SW_RESTORE :: fIssued) = 0 := by
    intro vk
    have h := hFall vk (fIssued.length + 1)
    simpa using h
  refine ⟨(.showWindow (enumKeypress lowerCase windowTitle s.windows (0, [])).1 SW_RESTORE
      :: fIssued) ++ (pressEvents lowerCase keys
        ++ releaseEvents ([] ++ heldCodes lowerCase keys)), ?_, ?_, ?_, ?_⟩
  · rw [handleKeypress_focused lowerCase windowTitle keys s _ rfl h0 hf,
      (keyLoop_resolved lowerCase windowTitle keys [] [] _ hall).2, hftrace]
    simp
  · intro vk
    have h := (keyEvents_counts lowerCase vk keys []).1
    have hz := hFfull vk
    simp only [ups, downs, List.count_append, List.count_nil] at h hz ⊢
    omega
  · intro vk i
    have h := keyEvents_take lowerCase vk keys [] (i - (fIssued.length + 1))
    have hz := hFall vk i
    rw [List.take_append_eq_append_take]
    simp only [ups, downs, List.count_append, List.count_nil, List.length_cons] at h hz ⊢
    omega
  · intro vk
    have h := (keyEvents_counts lowerCase vk keys []).2
    have hz := hFfull vk
    simp only [downs, List.count_append] at h hz ⊢
    omega

/-- C20 (instance): "shift" twice, "ctrl" and "a" on the focused window "Notepad": Shift is
pressed twice and released twice. -/
theorem success_leaves_no_key_held_witness :
    ∃ issued : List Call,
      (handleKeypress sampleCaseTable "notepad" ["shift", "ctrl", "Shift", "a"]
        (Sys.init notepadWindows (fun _ => 101))).2.trace =
        (Sys.init notepadWindows (fun _ => 101)).trace ++ issued ∧
      (∀ vk : Nat, ups vk issued = downs vk issued) ∧
      (∀ vk i : Nat, ups vk (issued.take i) ≤ downs vk (issued.take i)) ∧
      (∀ vk : Nat, downs vk issued =
        (["shift", "ctrl", "Shift", "a"].filter
          (fun k => decide (vkCodeOf (toLower sampleCaseTable k) = some vk))).length) :=
  success_leaves_no_key_held sampleCaseTable "notepad" ["shift", "ctrl", "Shift", "a"]
    (Sys.init notepadWindows (fun _ => 101)) (by decide)

end TCPKeyboard

namespace TCPKeyboard

/-! ## Resolution and visibility -/

theorem enumKeypress_visible_congr (lowerCase : Char → Char) (windowTitle : String)
    {ws ws2 : List Window} (h : List.Forall₂ sameUpToVisible ws ws2) :
    ∀ acc : Nat × List String,
      enumKeypress lowerCase windowTitle ws acc = enumKeypress lowerCase windowTitle ws2 acc := by
  induction h with
  | nil => intro acc; rfl
  | @cons a b l1 l2 hab _ ih =>
    intro acc
    obtain ⟨hwnd, allWindows⟩ := acc
    obtain ⟨hhandle, htitle, _⟩ := hab
    unfold enumKeypress
    simp only [hhandle, htitle, ih]

theorem waitLoop_withWindows (hwnd deadline : Nat) (ws : List Window) :
    ∀ (fuel : Nat) (s : Sys),
      waitLoop hwnd deadline fuel (withWindows s ws) =
        ((waitLoop hwnd deadline fuel s).1, withWindows (waitLoop hwnd deadline fuel s).2 ws) := by
  intro fuel
  induction fuel with
  | zero => intro s; rfl
  | succ n ih =>
    intro s
    by_cases hnow : s.now < deadline
    · have hnow2 : (withWindows s ws).now < deadline := hnow
      by_cases hfg : s.foreground s.polls = hwnd
      · have hfg2 : (withWindows s ws).foreground (withWindows s ws).polls = hwnd := hfg
        simp only [waitLoop, hnow, hnow2, if_true, getForegroundWindow, hfg, hfg2]
        rfl
      · have hfg2 : ¬ (withWindows s ws).foreground (withWindows s ws).polls = hwnd := hfg
        have hstep : sleep 25 (getForegroundWindow (withWindows s ws)).2 =
            withWindows (sleep 25 (getForegroundWindow s).2) ws := rfl
        have h1 : waitLoop hwnd deadline (n + 1) (withWindows s ws) =
            waitLoop hwnd deadline n (sleep 25 (getForegroundWindow (withWindows s ws)).2) := by
          simp [waitLoop, hnow2, getForegroundWindow, hfg2]
        have h2 : waitLoop hwnd deadline (n + 1) s =
            waitLoop hwnd deadline n (sleep 25 (getForegroundWindow s).2) := by
          simp [waitLoop, hnow, getForegroundWindow, hfg]
        rw [h1, h2, hstep, ih]
    · have hnow2 : ¬ (withWindows s ws).now < deadline := hnow
      simp [waitLoop, hnow, hnow2]

theorem waitForForeground_withWindows (hwnd timeout : Nat) (ws : List Window) (s : Sys) :
    waitForForeground hwnd timeout (withWindows s ws) =
      ((waitForForeground hwnd timeout s).1, withWindows (waitForForeground hwnd timeout s).2 ws) :=
  waitLoop_withWindows hwnd (s.now + timeout) ws (timeout + 1) s

theorem focusLoop_withWindows (hwnd : Nat) (ws : List Window) :
    ∀ (n : Nat) (s : Sys),
      focusLoop hwnd n (withWindows s ws) = withWindows (focusLoop hwnd n s) ws := by
  intro n
  induction n with
  | zero => intro s; rfl
  | succ n ih =>
    intro s
    have hset : setForegroundWindow hwnd (withWindows s ws) =
        withWindows (setForegroundWindow hwnd s) ws := rfl
    rw [focusLoop_succ, focusLoop_succ, hset, waitForForeground_withWindows]
    cases hok : (waitForForeground hwnd 350 (setForegroundWindow hwnd s)).1 with
    | true => simp
    | false =>
      simp only [Bool.false_eq_true, if_false]
      exact ih (sleep 75 (waitForForeground hwnd 350 (setForegroundWindow hwnd s)).2)

theorem focusWindow_withWindows (hwnd : Nat) (ws : List Window) (s : Sys) :
    focusWindow hwnd (withWindows s ws) =
      ((focusWindow hwnd s).1, withWindows (focusWindow hwnd s).2 ws) := by
  have hshow : showWindow hwnd SW_RESTORE (withWindows s ws) =
      withWindows (showWindow hwnd SW_RESTORE s) ws := rfl
  unfold focusWindow
  rw [hshow, focusLoop_withWindows, waitForForeground_withWindows]

theorem releaseLoop_withWindows (ws : List Window) :
    ∀ (held : List Nat) (s : Sys),
      releaseLoop held (withWindows s ws) = withWindows (releaseLoop held s) ws := by
  intro held
  induction held with
  | nil => intro s; rfl
  | cons vk rest ih =>
    intro s
    have hstep : sleep 50 (keybd_event vk KEYEVENTF_KEYUP (withWindows s ws)) =
        withWindows (sleep 50 (keybd_event vk KEYEVENTF_KEYUP s)) ws := rfl
    simp only [releaseLoop]
    rw [hstep, ih]

theorem keyLoop_withWindows (lowerCase : Char → Char) (windowTitle : String)
    (ws : List Window) :
    ∀ (keys pressed : List String) (held : List Nat) (s : Sys),
      keyLoop lowerCase windowTitle keys pressed held (withWindows s ws) =
        ((keyLoop lowerCase windowTitle keys pressed held s).1,
          withWindows (keyLoop lowerCase windowTitle keys pressed held s).2 ws) := by
  intro keys
  induction keys with
  | nil =>
    intro pressed held s
    rw [keyLoop_nil, keyLoop_nil, releaseLoop_withWindows]
  | cons key rest ih =>
    intro pressed held s
    unfold keyLoop
    cases hkey : vkCodeOf (toLower lowerCase key) with
    | none => rfl
    | some vk =>
      cases hmod : isModifierKey (toLower lowerCase key) with
      | true =>
        have hstep : sleep 50 (keybd_event vk 0 (withWindows s ws)) =
            withWindows (sleep 50 (keybd_event vk 0 s)) ws := rfl
        simp only [if_true]
        rw [hstep, ih]
      | false =>
        have hstep : sleep 50 (keybd_event vk KEYEVENTF_KEYUP
              (sleep 50 (keybd_event vk 0 (withWindows s ws)))) =
            withWindows (sleep 50 (keybd_event vk KEYEVENTF_KEYUP
              (sleep 50 (keybd_event vk 0 s)))) ws := rfl
        simp only [Bool.false_eq_true, if_false]
        rw [hstep, ih]

/-- A command run on a snapshot with other visible flags gives the same response and the same
calls. -/
theorem handleKeypress_withWindows (lowerCase : Char → Char) (windowTitle : String)
    (keys : List String) (s : Sys) (ws2 : List Window)
    (h : List.Forall₂ sameUpToVisible s.windows ws2) :
    (handleKeypress lowerCase windowTitle keys (withWindows s ws2)).1 =
      (handleKeypress lowerCase windowTitle keys s).1 ∧
    (handleKeypress lowerCase windowTitle keys (withWindows s ws2)).2.trace =
      (handleKeypress lowerCase windowTitle keys s).2.trace := by
  have henum : enumKeypress lowerCase windowTitle (withWindows s ws2).windows (0, []) =
      enumKeypress lowerCase windowTitle s.windows (0, []) :=
    (enumKeypress_visible_congr lowerCase windowTitle h (0, [])).symm
  by_cases h0 : (enumKeypress lowerCase windowTitle s.windows (0, [])).1 = 0
  · rw [handleKeypress_not_found lowerCase windowTitle keys s h0,
      handleKeypress_not_found lowerCase windowTitle keys (withWindows s ws2) (by rw [henum, h0]),
      henum]
    exact ⟨rfl, rfl⟩
  · have hfw := focusWindow_withWindows
      (enumKeypress lowerCase windowTitle s.windows (0, [])).1 ws2 s
    cases hf : (focusWindow (enumKeypress lowerCase windowTitle s.windows (0, [])).1 s).1 with
    | false =>
      rw [handleKeypress_unfocused lowerCase windowTitle keys s _ rfl h0 hf,
        handleKeypress_unfocused lowerCase windowTitle keys (withWindows s ws2) _
          (by rw [henum]) h0 (by rw [hfw]; exact hf), hfw]
      exact ⟨rfl, rfl⟩
    | true =>
      rw [handleKeypress_focused lowerCase windowTitle keys s _ rfl h0 hf,
        handleKeypress_focused lowerCase windowTitle keys (withWindows s ws2) _
          (by rw [henum]) h0 (by rw [hfw]; exact hf), hfw, keyLoop_withWindows]
      exact ⟨rfl, rfl⟩

/-- C21: keypress resolution ignores window visibility. For two enumerations that agree on
handles and titles and differ arbitrarily in the visible flags, the enumeration callback
resolves the same handle (and collects the same titles), and the whole command gives the same
response and issues the same calls. A hidden "Notepad" that comes first is resolved although
the visible "notepad++ editor" also matches, and list-visible does not report it. -/
theorem resolution_ignores_visibility (lowerCase : Char → Char) (windowTitle : String)
    (ws ws2 : List Window) (h : List.Forall₂ sameUpToVisible ws ws2) :
    enumKeypress lowerCase windowTitle ws (0, []) =
      enumKeypress lowerCase windowTitle ws2 (0, []) ∧
    (∀ (keys : List String) (s : Sys), s.windows = ws →
      (handleKeypress lowerCase windowTitle keys (withWindows s ws2)).1 =
        (handleKeypress lowerCase windowTitle keys s).1 ∧
      (handleKeypress lowerCase windowTitle keys (withWindows s ws2)).2.trace =
        (handleKeypress lowerCase windowTitle keys s).2.trace) ∧
    (enumKeypress lowerCase "notepad"
      [⟨101, "Notepad", false, false⟩, ⟨102, "notepad++ editor", true, false⟩] (0, [])).1 = 101 ∧
    listVisibleTitles
      [⟨101, "Notepad", false, false⟩, ⟨102, "notepad++ editor", true, false⟩]
      = ["notepad++ editor"] := by
  refine ⟨enumKeypress_visible_congr lowerCase windowTitle h (0, []), ?_, rfl, by decide⟩
  intro keys s hs
  exact handleKeypress_withWindows lowerCase windowTitle keys s ws2 (by rw [hs]; exact h)

/-- C21 (instance): hiding "Notepad" does not change what the pattern "notepad" resolves. -/
theorem resolution_ignores_visibility_witness :
    enumKeypress sampleCaseTable "notepad" notepadWindows (0, []) =
      enumKeypress sampleCaseTable "notepad"
        [⟨101, "Notepad", false, false⟩, ⟨102, "notepad++ editor", true, false⟩] (0, []) :=
  (resolution_ignores_visibility sampleCaseTable "notepad" notepadWindows
    [⟨101, "Notepad", false, false⟩, ⟨102, "notepad++ editor", true, false⟩]
    (List.Forall₂.cons ⟨rfl, rfl, rfl⟩ (List.Forall₂.cons ⟨rfl, rfl, rfl⟩ List.Forall₂.nil))).1

end TCPKeyboard
